import Mathlib

/-!
Verification of the SAJE query/schema engine against its specification.

The Python sources are shallowly embedded:
* JSON values (as produced by Python's `json` module) become the inductive
  type `Json` below: objects are insertion-ordered association lists with
  string keys, arrays are lists, and scalars (`str`/`int`/`bool`, the three
  accepted by `jsonplus.Type.of`) become `Scalar`.
* Python exceptions become the `Except PyErr` monad; distinct exception
  classes become distinct `PyErr` constructors, since `except KeyError:`
  clauses in the source discriminate on the class.
* Path segments (`str` keys and `int` indices) become `Key`.  Python's
  negative-index wrap-around for lists is not modelled (no code path in the
  repository nor any claim exercises a negative segment), so indices are
  naturals.
* Python `bool`/`int` value aliasing (`True == 1`) is not modelled; no claim
  mixes booleans with integers.
-/

namespace SAJE

/-- A JSON scalar: one of the three Python types accepted by
`jsonplus.Type.of` as json Values (`str`, `int`, `bool`). -/
inductive Scalar
  | s (v : String)
  | i (v : Int)
  | b (v : Bool)
deriving DecidableEq

/-- One segment of a JSON path: a string key into an object or a numeric
index into an array. -/
inductive Key
  | str (k : String)
  | idx (i : Nat)
deriving DecidableEq

/-- A JSON value: object (ordered association list, as a Python `dict`),
array, or scalar.  Mirrors the three-way classification of
`jsonplus.Type` (`Object`, `Array`, `Value`). -/
inductive Json
  | obj (kvs : List (String × Json))
  | arr (elems : List Json)
  | val (v : Scalar)

mutual

def Json.decEq : (a b : Json) → Decidable (a = b)
  | .obj a, .obj b =>
      match Json.decEqKvs a b with
      | isTrue h => isTrue (by rw [h])
      | isFalse h => isFalse (fun hh => h (Json.obj.inj hh))
  | .obj _, .arr _ => isFalse (fun h => Json.noConfusion h)
  | .obj _, .val _ => isFalse (fun h => Json.noConfusion h)
  | .arr _, .obj _ => isFalse (fun h => Json.noConfusion h)
  | .arr a, .arr b =>
      match Json.decEqList a b with
      | isTrue h => isTrue (by rw [h])
      | isFalse h => isFalse (fun hh => h (Json.arr.inj hh))
  | .arr _, .val _ => isFalse (fun h => Json.noConfusion h)
  | .val _, .obj _ => isFalse (fun h => Json.noConfusion h)
  | .val _, .arr _ => isFalse (fun h => Json.noConfusion h)
  | .val a, .val b =>
      if h : a = b then isTrue (by rw [h])
      else isFalse (fun hh => h (Json.val.inj hh))

def Json.decEqKvs : (a b : List (String × Json)) → Decidable (a = b)
  | [], [] => isTrue rfl
  | [], _ :: _ => isFalse (fun h => List.noConfusion h)
  | _ :: _, [] => isFalse (fun h => List.noConfusion h)
  | (k, v) :: a, (k', v') :: b =>
      if h1 : k = k' then
        match Json.decEq v v', Json.decEqKvs a b with
        | isTrue h2, isTrue h3 => isTrue (by rw [h1, h2, h3])
        | isFalse h2, _ => isFalse (fun hh => by cases hh; exact h2 rfl)
        | _, isFalse h3 => isFalse (fun hh => by cases hh; exact h3 rfl)
      else isFalse (fun hh => by cases hh; exact h1 rfl)

def Json.decEqList : (a b : List Json) → Decidable (a = b)
  | [], [] => isTrue rfl
  | [], _ :: _ => isFalse (fun h => List.noConfusion h)
  | _ :: _, [] => isFalse (fun h => List.noConfusion h)
  | v :: a, v' :: b =>
      match Json.decEq v v', Json.decEqList a b with
      | isTrue h2, isTrue h3 => isTrue (by rw [h2, h3])
      | isFalse h2, _ => isFalse (fun hh => by cases hh; exact h2 rfl)
      | _, isFalse h3 => isFalse (fun hh => by cases hh; exact h3 rfl)

end

instance : DecidableEq Json := Json.decEq

/-- Python exception classes raised by the embedded code.  `jsonplus.has`
catches exactly `KeyError`, so the class structure matters. -/
inductive PyErr
  | keyError (msg : String)
  | indexError (msg : String)
  | typeError (msg : String)
  | valueError (msg : String)
  | attributeError (msg : String)
  | notAJsonType (msg : String)
deriving DecidableEq

/-- Is this exception a `KeyError` (the only class caught by `has`)? -/
def PyErr.isKeyError : PyErr → Bool
  | .keyError _ => true
  | _ => false

instance {ε α : Type} [DecidableEq ε] [DecidableEq α] :
    DecidableEq (Except ε α) := fun a b =>
  match a, b with
  | .ok x, .ok y =>
      if h : x = y then isTrue (by rw [h])
      else isFalse (fun hh => h (by cases hh; rfl))
  | .error x, .error y =>
      if h : x = y then isTrue (by rw [h])
      else isFalse (fun hh => h (by cases hh; rfl))
  | .ok _, .error _ => isFalse (fun hh => Except.noConfusion hh)
  | .error _, .ok _ => isFalse (fun hh => Except.noConfusion hh)

namespace jsonplus

/-- Python subscription `obj[k]`, as used by each step of `get`:
* object with a string key: dict lookup, `KeyError` when absent;
* object with an int index: dict lookup of a non-string key, `KeyError`
  (JSON objects only carry string keys);
* array with an int index: list indexing, `IndexError` out of range;
* array with a string key: `TypeError` (list indices must be integers);
* string scalar with an int index: Python strings are subscriptable and
  yield a one-character string, `IndexError` out of range;
* any other scalar subscription: `TypeError`. -/
def pyIndex : Json → Key → Except PyErr Json
  | .obj kvs, .str s =>
      match kvs.lookup s with
      | some v => .ok v
      | none => .error (.keyError s)
  | .obj _, .idx i => .error (.keyError (toString i))
  | .arr l, .idx i =>
      if h : i < l.length then .ok (l.get ⟨i, h⟩)
      else .error (.indexError "list index out of range")
  | .arr _, .str _ => .error (.typeError "list indices must be integers")
  | .val (.s str), .idx i =>
      if h : i < str.data.length then .ok (.val (.s ⟨[str.data.get ⟨i, h⟩]⟩))
      else .error (.indexError "string index out of range")
  | .val (.s _), .str _ => .error (.typeError "string indices must be integers")
  | .val (.i _), _ => .error (.typeError "int object is not subscriptable")
  | .val (.b _), _ => .error (.typeError "bool object is not subscriptable")

/-- Indexing `root` with each segment of `path` in order (the first segment
into `root`, the second into that result, and so on); the stepwise traversal
the specification describes for `get`. -/
def walk (root : Json) (path : List Key) : Except PyErr Json :=
  path.foldlM pyIndex root

/-- The function `jsonplus.get` (src/src/json_utils/jsonplus.py lines 294-317), for the
default `jtype=None` (no type check) and an already-split key list.  The
source descends through `key[:-1]` and then subscripts the result with
`key[0]` — the FIRST segment again, not the last one. -/
def get (obj : Json) : List Key → Except PyErr Json
  | [] => .error (.keyError "empty Json key")
  | k :: ks => do
      let o ← walk obj (k :: ks).dropLast
      pyIndex o k

/-- The function `jsonplus.has` (lines 320-325): runs `get` and converts a `KeyError` to
`false`; any other exception class propagates. -/
def has (obj : Json) (key : List Key) : Except PyErr Bool :=
  match get obj key with
  | .ok _ => .ok true
  | .error e => if e.isKeyError then .ok false else .error e

end jsonplus

namespace jsonpp

/-- The function `jsonpp.get` (src/src/jsonpp.py lines 218-226): empty key is a
`KeyError`, a single segment subscripts once, otherwise subscript with the
first segment and recurse on the rest. -/
def get (obj : Json) : List Key → Except PyErr Json
  | [] => .error (.keyError "empty Json key")
  | [k] => jsonplus.pyIndex obj k
  | k :: k' :: ks => do
      let o ← jsonplus.pyIndex obj k
      get o (k' :: ks)

/-- The function `jsonpp.has` (lines 229-237): `get` with `KeyError` converted to
`false`; other exception classes propagate. -/
def has (obj : Json) (key : List Key) : Except PyErr Bool :=
  match get obj key with
  | .ok _ => .ok true
  | .error e => if e.isKeyError then .ok false else .error e

end jsonpp

/-- The concrete root `{"a": {"b": 1}}`. -/
def rootAB : Json := .obj [("a", .obj [("b", .val (.i 1))])]

/-- The concrete path `a.b`. -/
def pathAB : List Key := [.str "a", .str "b"]

namespace jsondb

/-- Combination operator between boolean test results (`jsondb.Operator`):
`AND` maps to Python `all`, `OR` to `any`. -/
inductive Operator
  | AND
  | OR
deriving DecidableEq

/-- Python `all` / `any` applied to a generator of fallible boolean tests:
items are evaluated left to right, an exception raised while producing an
item propagates, and evaluation short-circuits at the first decisive
value. -/
def Operator.combine : Operator → List (Except PyErr Bool) → Except PyErr Bool
  | .AND, [] => .ok true
  | .AND, x :: xs =>
      match x with
      | .error e => .error e
      | .ok false => .ok false
      | .ok true => Operator.combine .AND xs
  | .OR, [] => .ok false
  | .OR, x :: xs =>
      match x with
      | .error e => .error e
      | .ok true => .ok true
      | .ok false => Operator.combine .OR xs

/-- Comparison enum (`jsondb.Comparison`) with its six members. -/
inductive Comparison
  | LT
  | LEQ
  | EQ
  | NEQ
  | GEQ
  | GT
deriving DecidableEq

/-- The pure comparison function of each `Comparison` member, on integer
operands (`x <comparison> y`). -/
def Comparison.compareInt : Comparison → Int → Int → Bool
  | .LT, x, y => decide (x < y)
  | .LEQ, x, y => decide (x ≤ y)
  | .EQ, x, y => decide (x = y)
  | .NEQ, x, y => decide (x ≠ y)
  | .GEQ, x, y => decide (y ≤ x)
  | .GT, x, y => decide (y < x)

/-- Python comparison `json_value <comparison> value` where `value` is an
`int`: `int` record values compare numerically (`bool` is an `int` in
Python, `True` counting as 1); `==` and `!=` between an `int` and any
other shape return `False` / `True`; ordering comparisons between an
`int` and a non-numeric shape raise `TypeError`. -/
def Comparison.compare : Comparison → Json → Int → Except PyErr Bool
  | c, .val (.i n), value => .ok (c.compareInt n value)
  | c, .val (.b bv), value => .ok (c.compareInt (if bv then 1 else 0) value)
  | .EQ, _, _ => .ok false
  | .NEQ, _, _ => .ok true
  | _, _, _ => .error (.typeError "comparison not supported between these instances")

/-- Python `set(...)` of a list of JSON values: scalars hash, while lists
and dicts are unhashable and raise `TypeError`. -/
def toScalarSet : List Json → Except PyErr (Finset Scalar)
  | [] => .ok ∅
  | .val v :: rest => do
      let s ← toScalarSet rest
      .ok (insert v s)
  | .arr _ :: _ => .error (.typeError "unhashable type: list")
  | .obj _ :: _ => .error (.typeError "unhashable type: dict")

/-- Python membership `subtxt in json_value` for a string `subtxt`:
substring test on a string, element membership on a list (equality with a
non-string element is simply `False`), key membership on a dict, and
`TypeError` on an `int` or `bool`. -/
def pyContains : Json → String → Except PyErr Bool
  | .val (.s text), sub => .ok (decide (sub.data <:+: text.data))
  | .arr l, sub => .ok (l.contains (.val (.s sub)))
  | .obj kvs, sub => .ok ((kvs.map Prod.fst).contains sub)
  | .val (.i _), _ => .error (.typeError "argument of type int is not iterable")
  | .val (.b _), _ => .error (.typeError "argument of type bool is not iterable")

/-- Search fields: the closed union of the three registered `FieldBase`
subclasses (`OptionField`, `IntegerField`, `TextField`), with their static
attributes. `OptionField.__init__` stores `set(values)`; `IntegerField`
stores optional `min_` / `max_` bounds. -/
inductive Field
  | option (key : List Key) (values : Finset Scalar) (optional : Bool)
  | integer (key : List Key) (min_ : Option Int) (max_ : Option Int) (optional : Bool)
  | text (key : List Key) (optional : Bool)

/-- The `key` attribute shared by all field variants. -/
def Field.key : Field → List Key
  | .option key _ _ => key
  | .integer key _ _ _ => key
  | .text key _ => key

/-- The `optional` attribute shared by all field variants. -/
def Field.optional : Field → Bool
  | .option _ _ optional => optional
  | .integer _ _ _ optional => optional
  | .text _ optional => optional

/-- The `valid_values` criteria argument of `OptionField.test`: either a
single scalar or a `ValueSet` of scalars (the `multi_selection` shape). -/
inductive ValueOrSet
  | single (v : Scalar)
  | set (s : Finset Scalar)

/-- Per-variant keyword arguments for one field's `test` method, as bundled
per field name in a `search` criteria mapping; `accept_missing` is the
keyword argument consumed by `FieldBase.compare` (default `True`). -/
inductive Args
  | option (valid_values : ValueOrSet) (operator : Operator) (accept_missing : Bool)
  | integer (value : Int) (comparison : Comparison) (accept_missing : Bool)
  | text (values : List String) (operator : Operator) (accept_missing : Bool)

/-- The `accept_missing` component of an argument bundle. -/
def Args.accept_missing : Args → Bool
  | .option _ _ am => am
  | .integer _ _ am => am
  | .text _ _ am => am

/-- Helper for `OptionField.test`: the record value converted to a set as
the source does — a json array contributes its elements, a json object its
values (`json_value.values()`). Never applied to a scalar (the source
branches on `Type` first). -/
def recordValueSet : Json → Except PyErr (Finset Scalar)
  | .arr l => toScalarSet l
  | .obj kvs => toScalarSet (kvs.map Prod.snd)
  | .val v => toScalarSet [.val v]

/-- Python `OptionField.test` (src/src/json_utils/jsondb.py lines 203-242).
For a `ValueSet` criteria: values outside the field's static `values` set
raise `ValueError`; a scalar record value tests by membership in the
criteria set; an array or object record value is converted to a set and
intersected with the criteria set, `OR` requiring a non-empty
intersection and `AND` requiring the intersection to equal the criteria
set.  For a single-value criteria: a value outside `values` raises
`ValueError`; a scalar record value tests by equality, an array or object
record value by membership of the criteria value. -/
def OptionField.test (values : Finset Scalar) (json_value : Json) :
    ValueOrSet → Operator → Except PyErr Bool
  | .set valid_values, operator =>
      if (valid_values \ values) ≠ ∅ then
        .error (.valueError "Invalid test values, must be included in the field values")
      else
        match json_value with
        | .val v => .ok (decide (v ∈ valid_values))
        | jv => do
            let vals ← recordValueSet jv
            match operator with
            | .OR => .ok (decide (vals ∩ valid_values ≠ ∅))
            | .AND => .ok (decide (vals ∩ valid_values = valid_values))
  | .single v, _ =>
      if v ∉ values then
        .error (.valueError "Invalid value, must be in the field values")
      else
        match json_value with
        | .val w => .ok (decide (w = v))
        | jv => do
            let vals ← recordValueSet jv
            .ok (decide (v ∈ vals))

/-- Python `IntegerField.test` (lines 281-296): the criteria value is
validated against the static bounds — `ValueError` below `min_` or above
`max_` — before the comparison `json_value <comparison> value` runs. -/
def IntegerField.test (min_ max_ : Option Int) (json_value : Json)
    (value : Int) (comparison : Comparison) : Except PyErr Bool :=
  if (min_.map (fun m => decide (value < m))).getD false then
    .error (.valueError "Invalid value, must be greater or equal to the minimum")
  else if (max_.map (fun m => decide (m < value))).getD false then
    .error (.valueError "Invalid value, must be less or equal to the maximum")
  else comparison.compare json_value value

/-- Python `TextField.test` (lines 316-326): combine, with the operator,
the membership tests `subtxt in json_value` over the criteria strings. -/
def TextField.test (json_value : Json) (values : List String)
    (operator : Operator) : Except PyErr Bool :=
  operator.combine (values.map (fun sub => pyContains json_value sub))

/-- Dispatch of `test` keyword arguments to the field variant.  Passing a
criteria bundle of the wrong shape to a field's `test` is a Python
`TypeError` (unexpected keyword argument). -/
def Field.test : Field → Json → Args → Except PyErr Bool
  | .option _ values _, jv, .option valid_values operator _ =>
      OptionField.test values jv valid_values operator
  | .integer _ min_ max_ _, jv, .integer value comparison _ =>
      IntegerField.test min_ max_ jv value comparison
  | .text _ _, jv, .text values operator _ =>
      TextField.test jv values operator
  | _, _, _ => .error (.typeError "unexpected keyword argument")

/-- Python `FieldBase.compare` (lines 107-124): if the record has a value
under the field's key, run `test` on it; otherwise return
`accept_missing`.  Exceptions from `has`, `get` or `test` propagate. -/
def Field.compare (f : Field) (json_obj : Json) (args : Args) :
    Except PyErr Bool := do
  let h ← jsonplus.has json_obj f.key
  if h then do
    let v ← jsonplus.get json_obj f.key
    f.test v args
  else .ok args.accept_missing

/-- The `jsondb.Database`: a record list and an insertion-ordered mapping
from names to fields. -/
structure Database where
  data : List Json
  fields : List (String × Field)

/-- The record-filtering loop of `Database.search`: the final list
comprehension, which keeps records (in order) whose combined field tests
are true, and aborts on the first exception. -/
def searchFilter (operator : Operator) (pairs : List (Field × Args)) :
    List Json → Except PyErr (List Json)
  | [] => .ok []
  | r :: rs => do
      let b ← operator.combine (pairs.map (fun fa => fa.1.compare r fa.2))
      let rest ← searchFilter operator pairs rs
      pure (if b then r :: rest else rest)

/-- Python `Database.search` (lines 349-378).  First checks that every
non-optional field is named in the criteria (`ValueError`), then that
every criteria name is a declared field — in the source this failing
branch computes `"Unknown search field %s" % set(criteria) - set(self.fields)`,
which by operator precedence subtracts a set from the formatted string
and raises `TypeError` before the intended `ValueError`; either way the
call aborts, modelled here as the `TypeError` Python actually raises.
Then the `(field, kwargs)` pairs are built from the criteria in order and
the data is filtered. -/
def Database.search (db : Database) (criteria : List (String × Args))
    (operator : Operator) : Except PyErr (List Json) :=
  match db.fields.find? (fun nf =>
      !nf.2.optional && !((criteria.map Prod.fst).contains nf.1)) with
  | some nf => .error (.valueError ("Field " ++ nf.1 ++ " must be specified"))
  | none =>
      if (criteria.map Prod.fst).any (fun n => !((db.fields.map Prod.fst).contains n)) then
        .error (.typeError "unsupported operand types for subtraction: str and set")
      else do
        let field_kwargs ← criteria.mapM (fun na =>
          match db.fields.lookup na.1 with
          | some f => Except.ok (f, na.2)
          | none => Except.error (PyErr.keyError na.1))
        searchFilter operator field_kwargs db.data

/-- The `(field, kwargs)` pairs named by a criteria mapping, in criteria
order (the claim-side description of `field_kwargs`). -/
def lookupPairs (fields : List (String × Field))
    (criteria : List (String × Args)) : List (Field × Args) :=
  criteria.filterMap (fun na => (fields.lookup na.1).map (fun f => (f, na.2)))

/-- Truth of one evaluated test result (successful and `True`). -/
def isOkTrue : Except PyErr Bool → Bool
  | .ok true => true
  | _ => false

/-- The specification's acceptance predicate for one record: under `AND`
every named `(field, args)` pair passes `compare`, under `OR` at least one
does. -/
def passes (operator : Operator) (pairs : List (Field × Args)) (r : Json) : Bool :=
  match operator with
  | .AND => pairs.all (fun fa => isOkTrue (fa.1.compare r fa.2))
  | .OR => pairs.any (fun fa => isOkTrue (fa.1.compare r fa.2))

/-- The record value's set-representation in the sense of the
specification sentence for multi-selection `OptionField.test`.  Modelled
from the spec: the record's value(s) as a set — a scalar is the one-element
set, an array the set of its elements, an object the set of its values. -/
def specSetRepr (json_value : Json) : Except PyErr (Finset Scalar) :=
  match json_value with
  | .val v => .ok {v}
  | jv => recordValueSet jv

end jsondb

/-- Lexicographic-by-code-point comparison of character lists: a strict
prefix is smaller, otherwise the first differing position decides. -/
def charsLt : List Char → List Char → Bool
  | [], [] => false
  | [], _ :: _ => true
  | _ :: _, [] => false
  | a :: as, b :: bs => if a = b then charsLt as bs else decide (a < b)

/-- Python string comparison `a < b`: lexicographic by code point (the
same relation as Lean's `String` order, defined here by structural
recursion over the character lists so that it computes). -/
def pyStrLt (a b : String) : Bool :=
  charsLt a.data b.data

namespace parsing

/-- Python `str()` of a JSON scalar. -/
def pyStr : Scalar → String
  | .s s => s
  | .i n => toString n
  | .b b => if b then "True" else "False"

/-- Helper for `pySplitDot`: accumulate the current chunk (reversed) while
walking the characters. -/
def splitDotAux : List Char → List Char → List String
  | acc, [] => [String.mk acc.reverse]
  | acc, c :: cs =>
      if c = '.' then String.mk acc.reverse :: splitDotAux [] cs
      else splitDotAux (c :: acc) cs

/-- Python `s.split(".")`: chunks between the dots, empty chunks
preserved, `""` splitting to `[""]`. -/
def pySplitDot (s : String) : List String :=
  splitDotAux [] s.data

/-- Python `s.lower()` (character-wise, as `NocaseList` membership
needs). -/
def pyLower (s : String) : String :=
  String.mk (s.data.map Char.toLower)

/-- Digits of a decimal literal to a natural number; `none` when a
non-digit occurs or the list is empty. -/
def digitsToNat : List Char → Option Nat
  | [] => none
  | l => go l 0
where
  go : List Char → Nat → Option Nat
    | [], acc => some acc
    | c :: cs, acc =>
        if c.isDigit then go cs (acc * 10 + (c.toNat - 48))
        else none

/-- Python `int(s)` on a string: an optional leading minus sign followed
by decimal digits. -/
def strToInt : String → Option Int
  | s =>
      match s.data with
      | '-' :: rest => (digitsToNat rest).map (fun n => -(n : Int))
      | l => (digitsToNat l).map (fun n => (n : Int))

/-- Python list indexing with a non-negative index: `IndexError` out of
range. -/
def pyListGet (l : List String) (i : Nat) : Except PyErr String :=
  match l.get? i with
  | some x => .ok x
  | none => .error (.indexError "list index out of range")

/-- Python dict subscription `d[k]` on a string-keyed dict. -/
def pyDictGet (kvs : List (String × Json)) (k : String) : Except PyErr Json :=
  match kvs.lookup k with
  | some v => .ok v
  | none => .error (.keyError k)

/-- Python iteration `for element in x`: a list yields its elements, a
dict its keys, a string its characters (as one-character strings), and an
`int` or `bool` raises `TypeError`. -/
def pyIterate : Json → Except PyErr (List Json)
  | .arr l => .ok l
  | .obj kvs => .ok (kvs.map (fun kv => .val (.s kv.1)))
  | .val (.s s) => .ok (s.data.map (fun c => .val (.s (String.mk [c]))))
  | .val (.i _) => .error (.typeError "int object is not iterable")
  | .val (.b _) => .error (.typeError "bool object is not iterable")

/-- Python truthiness of a JSON value (`bool(x)`). -/
def pyTruthy : Json → Bool
  | .val (.b b) => b
  | .val (.i n) => decide (n ≠ 0)
  | .val (.s s) => decide (s ≠ "")
  | .arr l => decide (l ≠ [])
  | .obj kvs => decide (kvs ≠ [])

/-- Python `int(x)` on a JSON value. -/
def pyToInt : Json → Except PyErr Int
  | .val (.i n) => .ok n
  | .val (.b b) => .ok (if b then 1 else 0)
  | .val (.s s) =>
      match strToInt s with
      | some n => .ok n
      | none => .error (.valueError "invalid literal for int")
  | .arr _ => .error (.typeError "int argument must be a string or a number")
  | .obj _ => .error (.typeError "int argument must be a string or a number")

/-- Python `set(x)` of a JSON value: a list yields the set of its
(hashable) elements, a string the set of its characters, a dict the set
of its keys, and an `int` or `bool` raises `TypeError`. -/
def pySet : Json → Except PyErr (Finset Scalar)
  | .arr l => jsondb.toScalarSet l
  | .val (.s s) => .ok ((s.data.map (fun c => Scalar.s (String.mk [c]))).toFinset)
  | .obj kvs => .ok (((kvs.map Prod.fst).map Scalar.s).toFinset)
  | .val (.i _) => .error (.typeError "int object is not iterable")
  | .val (.b _) => .error (.typeError "bool object is not iterable")

/-- Python dict item assignment `d[k] = v`: replaces the value in place
when the key exists, appends the binding otherwise. -/
def dictSet (kvs : List (String × Json)) (k : String) (v : Json) :
    List (String × Json) :=
  match kvs with
  | [] => [(k, v)]
  | (k', v') :: rest =>
      if k' = k then (k', v) :: rest else (k', v') :: dictSet rest k v

/-- Python `d.pop(k)`'s effect on the dict: order-preserving removal of
the (unique) binding of `k`. -/
def dictPop (kvs : List (String × Json)) (k : String) : List (String × Json) :=
  match kvs with
  | [] => []
  | (k', v') :: rest =>
      if k' = k then rest else (k', v') :: dictPop rest k

mutual

def jsonSize : Json → Nat
  | .val _ => 1
  | .obj kvs => 1 + jsonSizeKvs kvs
  | .arr l => 1 + jsonSizeList l

def jsonSizeKvs : List (String × Json) → Nat
  | [] => 0
  | kv :: rest => 1 + jsonSize kv.2 + jsonSizeKvs rest

def jsonSizeList : List Json → Nat
  | [] => 0
  | v :: rest => 1 + jsonSize v + jsonSizeList rest

end

/-- The reserved caching key `parsing.CACHE_KEY` (line 24). -/
def CACHE_KEY : String := "__CACHED_DISPLAY_STRING__"

/-- Python `parsing.get_display` (lines 241-244), instrumented with the
number of `display_string.format` invocations (third component of the
result): when the record already contains the reserved key — whether
written by a prior render or present in the loaded data itself — the
stored value is returned and `format` is never called; otherwise `format`
runs once on the record, its result is stored under the reserved key
(appended, Python dict assignment on a fresh key), and the stored value is
returned. -/
def get_display (format : List (String × Json) → String)
    (json_obj : List (String × Json)) :
    Option Json × List (String × Json) × Nat :=
  if (json_obj.map Prod.fst).contains CACHE_KEY then
    (json_obj.lookup CACHE_KEY, json_obj, 0)
  else
    let s := format json_obj
    let updated := dictSet json_obj CACHE_KEY (.val (.s s))
    (updated.lookup CACHE_KEY, updated, 1)

/-- The version gate of `parse_file` (src/src/parsing.py lines 255-261):
`prog_ver = version.__version__.split(".")`,
`json_ver = json_version.split(".")`, then
`if prog_ver[0] != json_ver[0] or prog_ver[1] < json_ver[1]: raise`.
The components are compared as STRINGS (Python `str` comparison is
lexicographic by code point), and the disjunction short-circuits, so the
minor components are only indexed when the majors agree.  The engine
version constant lives in `src/version.py`, which is not among the
sources, so the engine version string is a parameter here. -/
def checkVersion (progVersion jsonVersion : String) : Except PyErr Unit := do
  let p0 ← pyListGet (pySplitDot progVersion) 0
  let j0 ← pyListGet (pySplitDot jsonVersion) 0
  if p0 ≠ j0 then
    .error (.valueError ("SAJE version " ++ progVersion ++
      " cannot load format from version " ++ jsonVersion))
  else do
    let p1 ← pyListGet (pySplitDot progVersion) 1
    let j1 ← pyListGet (pySplitDot jsonVersion) 1
    if pyStrLt p1 j1 then
      .error (.valueError ("SAJE version " ++ progVersion ++
        " cannot load format from version " ++ jsonVersion))
    else .ok ()

/-- Tags of the `DisplayString` subclasses that declare `KEYWORDS` and
therefore register themselves for signature-based dispatch. -/
inductive DSTag
  | ifKey
  | jsonType
  | table
  | forall_
deriving DecidableEq

/-- The `DisplayString.CLASSES` registry: `(KEYWORDS, class)` pairs in
registration order.  `__init_subclass__` appends each subclass when its
`class` statement executes, so the order is the order of class
definitions in parsing.py: `IfKeyDS` (line 136), `JsonTypeDS` (line 152),
`TableDS` (line 177), `ForallDS` (line 211).  Subclasses with
`KEYWORDS = None` (`DefaultDS`, `StringDS`, `ArrayDS`) do not register. -/
def CLASSES : List (Finset String × DSTag) :=
  [({"if_key", "display_string"}, .ifKey),
   ({"if_json_type", "json_value", "json_array", "json_object"}, .jsonType),
   ({"key", "table"}, .table),
   ({"forall", "display_string"}, .forall_)]

/-- The dispatch loop of `DisplayString.from_json` for an Object argument
(lines 60-64): the first registered class whose keyword set is contained
in the object's key set (`keywords & json_kw == keywords`) wins; `none`
when no signature matches. -/
def dispatch (json_kw : Finset String) : Option DSTag :=
  (CLASSES.find? (fun c => decide (c.1 ∩ json_kw = c.1))).map Prod.snd

/-- The key set of a JSON object (`set(json_obj)`). -/
def keysOf (kvs : List (String × Json)) : Finset String :=
  (kvs.map Prod.fst).toFinset

/-- The parsed `DisplayString` tree: the seven template variants.  The
`key` attributes are stored raw, as the source does (they are interpreted
only by `_format`, which no claim exercises). -/
inductive DS
  | default_
  | string_ (string : String)
  | array (display_strings : List DS)
  | ifKey (key : Json) (display_string : DS)
  | jsonType (key : Json) (json_value json_array json_object : DS)
  | table (key : Json) (table : List (String × DS))
  | forall_ (key : Json) (display_string : DS) (sep : Json)

/-- Python `DisplayString.from_json` (lines 49-75) on a json value, with
recursion fuel (the entry point passes `jsonSize`, which bounds the
recursion depth; the fuel branch is unreachable then).  A scalar gives
`StringDS(str(scalar))`, an array gives `ArrayDS` of the parsed elements,
and an object is dispatched by key-set signature: `IfKeyDS` reads
`if_key` and parses `display_string`; `JsonTypeDS` reads `if_json_type`
and parses the three `json_*` entries (the source iterates a `set`
literal whose order Python leaves unspecified; only the order in which
sub-parse errors surface differs, modelled here in the written order);
`TableDS` parses every entry of the `table` dict (which must be a dict,
else `AttributeError` on `.items()`) and requires a `""` default entry;
`ForallDS` reads `forall`, parses `display_string` and reads the raw
`separator` with default `""`.  No matching signature is a
`ValueError`. -/
def fromJsonJ : Nat → Json → Except PyErr DS
  | 0, _ => .error (.valueError "recursion fuel exhausted")
  | _ + 1, .val v => .ok (.string_ (pyStr v))
  | fuel + 1, .arr l => do
      let subs ← l.mapM (fun sub => fromJsonJ fuel sub)
      .ok (.array subs)
  | fuel + 1, .obj kvs =>
      match dispatch (keysOf kvs) with
      | some .ifKey => do
          let k ← pyDictGet kvs "if_key"
          let dsJ ← pyDictGet kvs "display_string"
          let ds ← fromJsonJ fuel dsJ
          .ok (.ifKey k ds)
      | some .jsonType => do
          let k ← pyDictGet kvs "if_json_type"
          let v1J ← pyDictGet kvs "json_value"
          let v1 ← fromJsonJ fuel v1J
          let v2J ← pyDictGet kvs "json_array"
          let v2 ← fromJsonJ fuel v2J
          let v3J ← pyDictGet kvs "json_object"
          let v3 ← fromJsonJ fuel v3J
          .ok (.jsonType k v1 v2 v3)
      | some .table => do
          let k ← pyDictGet kvs "key"
          let tJ ← pyDictGet kvs "table"
          match tJ with
          | .obj tkvs => do
              let t ← tkvs.mapM (fun kv => do
                  let d ← fromJsonJ fuel kv.2
                  pure (kv.1, d))
              if (t.map Prod.fst).contains "" then .ok (.table k t)
              else .error (.valueError
                "table display_string requires a default under the empty key")
          | _ => .error (.attributeError "object has no attribute items")
      | some .forall_ => do
          let kJ ← pyDictGet kvs "forall"
          let dsJ ← pyDictGet kvs "display_string"
          let ds ← fromJsonJ fuel dsJ
          let sep := (kvs.lookup "separator").getD (.val (.s ""))
          .ok (.forall_ kJ ds sep)
      | none => .error (.valueError "No display_string object matches the keywords")

/-- Python `DisplayString.from_json` entry point.  An absent
specification is Python `None`: the source assigns `obj = DefaultDS()`
but then immediately calls `json.Type(json_obj)`, and `Type.of(None)`
raises `NotAJsonTypeError` (`None` is none of Mapping / Sequence / int /
str / bool), so the `DefaultDS` branch never returns. -/
def from_json : Option Json → Except PyErr DS
  | none => .error (.notAJsonType "NoneType is not a valid type for json")
  | some j => fromJsonJ (jsonSize j) j

/-- Python type discriminators used by `GuiDataBase.coerce`'s `type_`
argument (`str`, `bool`, `int`). -/
inductive PyTy
  | str
  | bool
  | int
deriving DecidableEq

/-- Python `isinstance` of a JSON value against a `PyTy`; a Python `bool`
is an instance of `int`. -/
def isinstance : Json → PyTy → Bool
  | .val (.s _), .str => true
  | .val (.b _), .bool => true
  | .val (.b _), .int => true
  | .val (.i _), .int => true
  | _, _ => false

/-- The `is_array` argument of `coerce`: `False`, `True`, the `MAYBE`
sentinel, or `None` (passed by the `operator` / `comparison` / `case`
coerces; falsy, so it behaves like `False` in both truthiness tests). -/
inductive IsArrayFlag
  | noArr
  | yesArr
  | maybeArr
  | noneArr
deriving DecidableEq

/-- Python truthiness of an `is_array` flag (`MAYBE` is a plain `object()`
sentinel, hence truthy). -/
def IsArrayFlag.truthy : IsArrayFlag → Bool
  | .noArr => false
  | .yesArr => true
  | .maybeArr => true
  | .noneArr => false

/-- Python `GuiDataBase.coerce` (lines 318-384).  Returns the popped (or
default) value together with the reduced dict.  `default = none` models
the `MISSING` sentinel (absent key is then a `ValueError`); an inner
`none` models a Python `None` default.  A json-object value is a
`TypeError`; an array value is rejected unless `is_array` is truthy or
`MAYBE`; a scalar is rejected when `is_array` is truthy and not `MAYBE`,
otherwise wrapped in a singleton; every element must be an instance of
`type_`, and, when `valid_values` is given (a `NocaseList` of lowercase
aliases), every element must be a member under case-insensitive string
comparison.  A one-element result list is unwrapped to its single
element. -/
def coerce (json_obj : List (String × Json)) (key : String) (type_ : PyTy)
    (default : Option (Option Json)) (is_array : IsArrayFlag)
    (valid_values : Option (List String)) (fieldName : String) :
    Except PyErr (Option Json × List (String × Json)) :=
  if h : (json_obj.lookup key).isSome then
    let value := (json_obj.lookup key).get h
    let popped := dictPop json_obj key
    let checks : Except PyErr (List Json) :=
      match value with
      | .obj _ => .error (.typeError "Field options cannot be json Objects")
      | .arr l =>
          if !is_array.truthy && is_array ≠ .maybeArr then
            .error (.typeError ("Option " ++ key ++ " of " ++ fieldName ++
              " field cannot be an Array"))
          else .ok l
      | v =>
          if is_array.truthy && is_array ≠ .maybeArr then
            .error (.typeError ("Option " ++ key ++ " of " ++ fieldName ++
              " field must be an Array"))
          else .ok [v]
    match checks with
    | .error e => .error e
    | .ok coerced =>
        if (coerced.filter (fun v => !isinstance v type_)) ≠ [] then
          .error (.typeError ("Invalid value for option " ++ key ++ " in " ++
            fieldName ++ " field, values must be of the right type"))
        else
          match valid_values with
          | some vlist =>
              if (coerced.filter (fun v =>
                  match v with
                  | .val (.s s) => !vlist.contains (pyLower s)
                  | _ => true)) ≠ [] then
                .error (.valueError ("Invalid value for option " ++ key ++
                  " in " ++ fieldName ++ " field, values must be in the valid list"))
              else
                if coerced.length = 1 then .ok (some (coerced.headD (.val (.s ""))), popped)
                else .ok (some (.arr coerced), popped)
          | none =>
              if coerced.length = 1 then .ok (some (coerced.headD (.val (.s ""))), popped)
              else .ok (some (.arr coerced), popped)
  else
    match default with
    | some d => .ok (d, json_obj)
    | none => .error (.valueError ("Option " ++ key ++ " is required for " ++
        fieldName ++ " field"))

/-- The aliases of `jsondb.Operator` members in enum order, lowercase: the
`GuiDataBase.OPS` NocaseList. -/
def OPS : List String := ["and", "all", "or", "any"]

/-- The aliases of `jsondb.Comparison` members in enum order, lowercase:
the `GuiDataBase.COMP` NocaseList. -/
def COMP : List String :=
  ["lt", "<", "leq", "<=", "eq", "=", "==", "neq", "!=", "geq", ">=", "gt", ">"]

/-- The data each `GuiDataBase` subclass instance carries that the claims
depend on: the field `name`, the parsed `modes` tag set (`None` when the
key is absent), the class discriminator (`cls.TYPE`) and the residual
`field_spec` dict left after the GUI-only keys were popped.  The other
coerced GUI values (`multi_selection`, `operator`, `comparison`,
`listed`, `case`) are validated — their coerces run, and their errors
surface — but their stored values are not needed by any claim and are
discarded. -/
structure GuiData where
  name : String
  modes : Option (Finset String)
  tag : String
  field_spec : List (String × Json)
deriving DecidableEq

/-- Python `GuiDataBase.__init__` (lines 302-308): coerce `name`
(required string) and `modes` (string or array of strings, default
`None`), converting `modes` to a set. -/
def parseGuiBase (json_obj : List (String × Json)) (fieldName : String) :
    Except PyErr (String × Option (Finset String) × List (String × Json)) := do
  let (nameV, json_obj) ← coerce json_obj "name" .str none .noArr none fieldName
  let (modesV, json_obj) ← coerce json_obj "modes" .str (some none) .maybeArr none fieldName
  match nameV with
  | some (.val (.s n)) =>
      let modes : Option (Finset String) :=
        match modesV with
        | none => none
        | some (.val (.s m)) => some {m}
        | some (.arr l) => some ((l.filterMap (fun e =>
            match e with
            | .val (.s m) => some m
            | _ => none)).toFinset)
        | some _ => none
      .ok (n, modes, json_obj)
  | _ => .error (.typeError "unreachable: a required str coerce returns a string")

/-- Python `OptionGuiData.__init__` (lines 395-408): base init, then
`multi_selection` (bool, default `False`) and `operator` (string among the
operator aliases, default `"or"`, `is_array=None`); the residue is the
field spec. -/
def parseOptionGui (json_obj : List (String × Json)) : Except PyErr GuiData := do
  let (n, modes, json_obj) ← parseGuiBase json_obj "option"
  let (_, json_obj) ← coerce json_obj "multi_selection" .bool
    (some (some (.val (.b false)))) .noArr none "option"
  let (_, json_obj) ← coerce json_obj "operator" .str
    (some (some (.val (.s "or")))) .noneArr (some OPS) "option"
  .ok ⟨n, modes, "Option", json_obj⟩

/-- Python `IntegerGuiData.__init__` (lines 419-432): base init, then
`listed` (array of ints, default `[]`) and `comparison` (string among the
comparison aliases, default `"eq"`, `is_array=None`). -/
def parseIntegerGui (json_obj : List (String × Json)) : Except PyErr GuiData := do
  let (n, modes, json_obj) ← parseGuiBase json_obj "integer"
  let (_, json_obj) ← coerce json_obj "listed" .int
    (some (some (.arr []))) .yesArr none "integer"
  let (_, json_obj) ← coerce json_obj "comparison" .str
    (some (some (.val (.s "eq")))) .noneArr (some COMP) "integer"
  .ok ⟨n, modes, "Integer", json_obj⟩

/-- Python `TextGuiData.__init__` (lines 442-455): base init, then
`operator` (default `["Any", "All"]`) and `case` (bool, default
`[False, True]`), both with `is_array=None`.  `TextGuiData` has no `NAME`
attribute, so its error messages interpolate `None`. -/
def parseTextGui (json_obj : List (String × Json)) : Except PyErr GuiData := do
  let (n, modes, json_obj) ← parseGuiBase json_obj "None"
  let (_, json_obj) ← coerce json_obj "operator" .str
    (some (some (.arr [.val (.s "Any"), .val (.s "All")]))) .noneArr (some OPS) "None"
  let (_, json_obj) ← coerce json_obj "case" .bool
    (some (some (.arr [.val (.b false), .val (.b true)]))) .noneArr none "None"
  .ok ⟨n, modes, "Text", json_obj⟩

/-- Python `GuiDataBase.parse_json` (lines 310-316): read `type` (not
popped) and dispatch on the registered `GuiDataBase.CLASSES`; a missing
`type` key is a `KeyError`, an unregistered value is a `KeyError` on the
`CLASSES` dict. -/
def GuiData.parse_json (json_obj : List (String × Json)) : Except PyErr GuiData := do
  let typeJ ← pyDictGet json_obj "type"
  match typeJ with
  | .val (.s "Option") => parseOptionGui json_obj
  | .val (.s "Integer") => parseIntegerGui json_obj
  | .val (.s "Text") => parseTextGui json_obj
  | _ => .error (.keyError "unknown GuiDataBase type")

/-- The nested-list GUI layout mirrored by `parse_nested_fields`:
field names and nested groups. -/
inductive Geo
  | name (s : String)
  | group (l : List Geo)

/-- Python `parse_nested_fields` (lines 458-479), with step fuel (the
entry point passes the `jsonSize` of the whole `fields` value plus one,
which bounds the number of recursive calls; the fuel branch is
unreachable then).  Array elements recurse into a nested geometry group,
Object elements parse one field spec — a duplicated name is a
`ValueError` — and scalar elements are silently skipped (the source's
`if`/`elif` has no `else` branch). -/
def parse_nested_fields : Nat → List (String × GuiData) → List Geo →
    List Json → Except PyErr (List (String × GuiData) × List Geo)
  | 0, _, _, _ => .error (.valueError "recursion fuel exhausted")
  | _ + 1, field_dict, field_geometry, [] => .ok (field_dict, field_geometry)
  | fuel + 1, field_dict, field_geometry, e :: rest =>
      match e with
      | .arr l => do
          let (fd, ng) ← parse_nested_fields fuel field_dict [] l
          parse_nested_fields fuel fd (field_geometry ++ [.group ng]) rest
      | .obj kvs => do
          let gd ← GuiData.parse_json kvs
          if (field_dict.map Prod.fst).contains gd.name then
            .error (.valueError ("Duplicated field name " ++ gd.name))
          else
            parse_nested_fields fuel (field_dict ++ [(gd.name, gd)])
              (field_geometry ++ [.name gd.name]) rest
      | .val _ => parse_nested_fields fuel field_dict field_geometry rest

/-- Conversion of a field's `key` attribute to path segments.  In the
source the raw value is stored and split (on `.`) only inside
`json.get`/`json.has` at query time; converting at construction is
equivalent for string keys (the only kind the repository's documents
use: a dotted path string splits into string segments).  An explicit
segment list is converted element-wise; other shapes are rejected here,
where Python would defer the failure to query time. -/
def parseFieldKey : Json → Except PyErr (List Key)
  | .val (.s s) => .ok ((pySplitDot s).map Key.str)
  | .arr l => l.mapM (fun e =>
      match e with
      | .val (.s s) => .ok (Key.str s)
      | .val (.i n) => .ok (Key.idx n.toNat)
      | _ => .error (.typeError "invalid key segment"))
  | _ => .error (.typeError "invalid field key")

/-- Python `FieldBase.from_json` plus the subclass `_make` constructors
(jsondb.py lines 156-189): require the `type` key, dispatch on the
registered field classes (`TypeError` for an unknown type), then call the
subclass `__init__` with the remaining entries as keyword arguments —
an unexpected key is a `TypeError`, a missing `key` argument too.
`OptionField` builds `set(values)` (default `[]`), `IntegerField` applies
`int()` to the optional `min` / `max` bounds (translated to `min_` /
`max_` by `KEY_TRANSLATION`), `TextField` accepts only the base
arguments; `optional` (default `True`) is coerced by truthiness. -/
def fieldFromJson (json_repr : List (String × Json)) : Except PyErr jsondb.Field := do
  if ¬ (json_repr.map Prod.fst).contains "type" then
    .error (.valueError "Invalid field json representation: must have key type")
  else do
    let optionalB ← match json_repr.lookup "optional" with
      | none => .ok true
      | some j => .ok (pyTruthy j)
    let keyV ← match json_repr.lookup "key" with
      | none => .error (.typeError "missing required argument: key")
      | some kJ => parseFieldKey kJ
    match json_repr.lookup "type" with
    | some (.val (.s "Option")) =>
        if ((json_repr.map Prod.fst).filter (fun k =>
            !(["type", "key", "values", "optional"].contains k))) ≠ [] then
          .error (.typeError "unexpected keyword argument")
        else do
          let values ← match json_repr.lookup "values" with
            | none => pySet (.arr [])
            | some vJ => pySet vJ
          .ok (.option keyV values optionalB)
    | some (.val (.s "Integer")) =>
        if ((json_repr.map Prod.fst).filter (fun k =>
            !(["type", "key", "min", "max", "optional"].contains k))) ≠ [] then
          .error (.typeError "unexpected keyword argument")
        else do
          let minV ← match json_repr.lookup "min" with
            | none => .ok none
            | some j => do
                let n ← pyToInt j
                .ok (some n)
          let maxV ← match json_repr.lookup "max" with
            | none => .ok none
            | some j => do
                let n ← pyToInt j
                .ok (some n)
          .ok (.integer keyV minV maxV optionalB)
    | some (.val (.s "Text")) =>
        if ((json_repr.map Prod.fst).filter (fun k =>
            !(["type", "key", "optional"].contains k))) ≠ [] then
          .error (.typeError "unexpected keyword argument")
        else .ok (.text keyV optionalB)
    | _ => .error (.typeError "Unknown field type")

/-- Python `Database.from_json` (jsondb.py lines 380-413) as invoked by
`parse_file` on the freshly built `{"fields": fields, "data": ...}` dict:
`data` must classify as Array or Object (an Object is iterated as
name-record pairs), non-Object entries are dropped with a warning, and
each field spec is parsed by `FieldBase.from_json`. -/
def db_from_json (fieldsSpecs : List (String × List (String × Json)))
    (dataJ : Json) : Except PyErr jsondb.Database := do
  let records ← match dataJ with
    | .arr l => .ok (l.filter (fun e =>
        match e with
        | .obj _ => true
        | _ => false))
    | .obj kvs => .ok ((kvs.map Prod.snd).filter (fun e =>
        match e with
        | .obj _ => true
        | _ => false))
    | .val _ => .error (.valueError
        "Invalid json DB: data key must have type json array or object")
  let flds ← fieldsSpecs.mapM (fun ns => do
      let f ← fieldFromJson ns.2
      pure (ns.1, f))
  .ok ⟨records, flds⟩

/-- The modes aggregation of `parse_file` (line 266):
`modes = set.union(gui_data.modes or set() for gui_data in field_dict)`.
Under Python semantics this raises unconditionally: `set.union` is an
unbound method whose first positional argument must itself be a `set`,
and it receives a generator, so `TypeError` is raised before the
generator is ever advanced.  (Had it been advanced, iterating
`field_dict` — a dict — would moreover yield the field NAMES, strings
with no `.modes` attribute.)  The intended expression was
`set.union(*(gui_data.modes or set() for gui_data in field_dict.values()))`. -/
def modesAggregation (_field_dict : List (String × GuiData)) :
    Except PyErr (Finset String) :=
  .error (.typeError "descriptor union requires a set object but received a generator")

/-- Modelled from the spec: the aggregation `parse_file` is documented to
compute — the union of the declared mode tag sets across all fields, a
field with no modes contributing the empty set. -/
def specModesUnion (field_dict : List (String × GuiData)) : Finset String :=
  field_dict.foldl (fun acc nf => acc ∪ (nf.2.modes.getD ∅)) ∅

/-- The `ParsedFile` namedtuple (line 28). -/
structure ParsedFile where
  name : Json
  display_string : DS
  gui_geometry : List Geo
  gui_datas : List (String × GuiData)
  database : jsondb.Database
  modes : Finset String

/-- Python `parse_file` (lines 247-276): read `version` (`ValueError`
when absent; `.split` on a non-string version value is an
`AttributeError`), run the version gate, recursively parse the nested
`fields` list, build the per-name field specs, aggregate `modes` (line
266 — which, see `modesAggregation`, always raises `TypeError`), and
build the `ParsedFile` with the display string and the database (the
source computes these inside the `return` expression, after the modes
line). -/
def parse_file (progVersion : String) (json_file : List (String × Json))
    (filename : String) : Except PyErr ParsedFile := do
  match json_file.lookup "version" with
  | none => .error (.valueError ("File " ++ filename ++ " has no version"))
  | some versionJ =>
    match versionJ with
    | .val (.s vs) => do
        checkVersion progVersion vs
        let fieldsJ ← pyDictGet json_file "fields"
        let elems ← pyIterate fieldsJ
        let (field_dict, field_geometry) ←
          parse_nested_fields (jsonSize fieldsJ + 1) [] [] elems
        let fields := field_dict.map (fun ng => (ng.1, ng.2.field_spec))
        let modes ← modesAggregation field_dict
        let ds ← from_json (json_file.lookup "display_string")
        let dataJ ← pyDictGet json_file "data"
        let db ← db_from_json fields dataJ
        .ok ⟨(json_file.lookup "name").getD (.val (.s filename)), ds,
          field_geometry, field_dict, db, modes⟩
    | _ => .error (.attributeError "version value has no attribute split")

/-- A concrete well-formed input document: version `0.1`, one Option
field named `color` with mode tag `m1`, and an empty data array. -/
def docC7 : List (String × Json) :=
  [("version", .val (.s "0.1")),
   ("fields", .arr [.obj
     [("type", .val (.s "Option")),
      ("name", .val (.s "color")),
      ("key", .val (.s "color")),
      ("values", .arr [.val (.s "red")]),
      ("modes", .val (.s "m1"))]]),
   ("data", .arr [])]

/-- The `GuiData` that parsing the single field of `docC7` produces. -/
def gdC7 : GuiData :=
  ⟨"color", some {"m1"}, "Option",
   [("type", .val (.s "Option")),
    ("key", .val (.s "color")),
    ("values", .arr [.val (.s "red")])]⟩

end parsing

namespace jsonplus

mutual

def flattenJson (keys : List Key) : Json → List (List Key × Scalar)
  | .val v => [(keys, v)]
  | .obj kvs => flattenObj keys kvs
  | .arr l => flattenArr keys 0 l

def flattenObj (keys : List Key) : List (String × Json) → List (List Key × Scalar)
  | [] => []
  | kv :: rest => flattenJson (keys ++ [.str kv.1]) kv.2 ++ flattenObj keys rest

def flattenArr (keys : List Key) (i : Nat) : List Json → List (List Key × Scalar)
  | [] => []
  | v :: rest => flattenJson (keys ++ [.idx i]) v ++ flattenArr keys (i + 1) rest

end

/-- Python `jsonplus.flatten` (lines 130-150): depth-first walk producing
every scalar leaf paired with its full path, object keys and array
indices in insertion order. -/
def flatten (json_obj : Json) : List (List Key × Scalar) :=
  flattenJson [] json_obj

/-- Comparison of two path segments as Python compares the sort keys of
`expand`.  At the position that decides a comparison between two paths of
one flattened value the segments come from one container, hence are
homogeneous (all strings for an object, all integers for an array);
Python raises `TypeError` on a mixed `int`/`str` comparison, which this
total order resolves arbitrarily (`idx < str`) — the case is never
exercised by a `flatten` output. -/
def keyLtB : Key → Key → Bool
  | .idx i, .idx j => decide (i < j)
  | .str a, .str b => pyStrLt a b
  | .idx _, .str _ => true
  | .str _, .idx _ => false

/-- Python tuple comparison of paths: lexicographic over segments, a
strict prefix sorting first. -/
def pathLtB : List Key → List Key → Bool
  | [], [] => false
  | [], _ :: _ => true
  | _ :: _, [] => false
  | a :: as, b :: bs => if a = b then pathLtB as bs else keyLtB a b

/-- The (non-strict) order `sorted(flat_json, key=lambda x: x[0])` sorts
by: entry `a` may precede entry `b` when `b`'s path is not smaller.
Python's sort is stable; so is the insertion sort used below — and on the
inputs of the round-trip theorem all paths are distinct, so every correct
sort agrees. -/
def entryLe (a b : List Key × Scalar) : Prop := pathLtB b.1 a.1 = false

instance : DecidableRel entryLe := fun _ _ =>
  inferInstanceAs (Decidable (_ = false))

/-- Strict path order between entries (used to state uniqueness of the
sorted form). -/
def entryLt (a b : List Key × Scalar) : Prop := pathLtB a.1 b.1 = true

instance : DecidableRel entryLt := fun _ _ =>
  inferInstanceAs (Decidable (_ = true))

/-- Python `setdefault(key, []).append(entry)` on an association list:
append to the existing group, else add a new group at the end. -/
def addToGroups (g : List (Key × List (List Key × Scalar))) (k : Key)
    (e : List Key × Scalar) : List (Key × List (List Key × Scalar)) :=
  match g with
  | [] => [(k, [e])]
  | (k', es) :: rest =>
      if k' = k then (k', es ++ [e]) :: rest
      else (k', es) :: addToGroups rest k e

/-- The grouping loop of `expand`'s string branch: group the entries by
head segment (first-occurrence order, as a Python dict), each entry
contributing its tail; an empty path is an `IndexError`
(`keylist[0]`). -/
def groupByHeadGo (acc : List (Key × List (List Key × Scalar))) :
    List (List Key × Scalar) →
    Except PyErr (List (Key × List (List Key × Scalar)))
  | [] => .ok acc
  | (kl, v) :: rest =>
      match kl with
      | [] => .error (.indexError "tuple index out of range")
      | k :: tail => groupByHeadGo (addToGroups acc k (tail, v)) rest

/-- Grouping by head segment, starting from the empty dict. -/
def groupByHead (flat : List (List Key × Scalar)) :
    Except PyErr (List (Key × List (List Key × Scalar))) :=
  groupByHeadGo [] flat

/-- The head index of the last entry's path (`int(last_keylist[0])`, used
for `range(... + 1)`).  A non-integer head or an empty last path cannot
arise from a flatten output at an integer-indexed level and is modelled
as an error (Python would attempt `int()` of the string segment or raise
`IndexError`). -/
def lastHeadIndex : List (List Key × Scalar) → Except PyErr Nat
  | [] => .error (.indexError "list index out of range")
  | [e] =>
      match e.1 with
      | .idx i :: _ => .ok i
      | _ => .error (.typeError "non-integer head segment")
  | _ :: e :: rest => lastHeadIndex (e :: rest)

/-- The filling loop of `expand`'s integer branch:
`json_array[keylist[0]].append((keylist[1:], value))` over the entries,
on an array of `n` initially empty buckets. -/
def fillArrayGo (arr : List (List (List Key × Scalar))) :
    List (List Key × Scalar) →
    Except PyErr (List (List (List Key × Scalar)))
  | [] => .ok arr
  | (kl, v) :: rest =>
      match kl with
      | [] => .error (.indexError "tuple index out of range")
      | .str _ :: _ => .error (.typeError "list indices must be integers")
      | .idx i :: tail =>
          if h : i < arr.length then
            fillArrayGo (arr.set i (arr.get ⟨i, h⟩ ++ [(tail, v)])) rest
          else .error (.indexError "list index out of range")

/-- Distribution of the entries over `n` buckets by head index. -/
def fillArray (n : Nat) (flat : List (List Key × Scalar)) :
    Except PyErr (List (List (List Key × Scalar))) :=
  fillArrayGo (List.replicate n []) flat

mutual

def expandRec : Nat → List (List Key × Scalar) → Except PyErr Json
  | 0, _ => .error (.valueError "recursion fuel exhausted")
  | _ + 1, [] => .error (.valueError "cannot convert empty flat json to json")
  | fuel + 1, (firstPath, firstVal) :: rest =>
      match firstPath with
      | [] =>
          match rest with
          | [] => .ok (.val firstVal)
          | _ :: _ => .error (.valueError "Multiple json values for flat key")
      | .str _ :: _ => do
          let groups ← groupByHead ((firstPath, firstVal) :: rest)
          let kvs ← expandGroups fuel groups
          .ok (.obj kvs)
      | .idx _ :: _ => do
          let n ← lastHeadIndex ((firstPath, firstVal) :: rest)
          let buckets ← fillArray (n + 1) ((firstPath, firstVal) :: rest)
          let elems ← expandBuckets fuel buckets
          .ok (.arr elems)

def expandGroups : Nat → List (Key × List (List Key × Scalar)) →
    Except PyErr (List (String × Json))
  | 0, _ => .error (.valueError "recursion fuel exhausted")
  | _ + 1, [] => .ok []
  | fuel + 1, (k, g) :: rest =>
      match k with
      | .str s => do
          let v ← expandRec fuel g
          let others ← expandGroups fuel rest
          .ok ((s, v) :: others)
      | .idx _ => .error (.typeError "non-string object key")

def expandBuckets : Nat → List (List (List Key × Scalar)) →
    Except PyErr (List Json)
  | 0, _ => .error (.valueError "recursion fuel exhausted")
  | _ + 1, [] => .ok []
  | fuel + 1, g :: rest => do
      let v ← expandRec fuel g
      let others ← expandBuckets fuel rest
      .ok (v :: others)

end

/-- Recursion fuel passed by `expand` to its worker: a bound on the
number of recursive calls the Python recursion performs on this flat
list (every recursion level strips one leading segment from every path,
and the per-level loops are covered by the per-entry constant). -/
def flatFuel : List (List Key × Scalar) → Nat
  | [] => 1
  | (p, _) :: rest => 2 * p.length + 2 + flatFuel rest

/-- Python `jsonplus.expand` (lines 153-183) with `dict_only=False`: sort
the flat pairs by path (Python's `sorted` with `key=lambda x: x[0]`,
stable — modelled by a stable insertion sort) and run the recursive
rebuild.  The recursion is modelled with sufficient fuel (see
`flatFuel`). -/
def expand (flat_json : List (List Key × Scalar)) : Except PyErr Json :=
  expandRec (flatFuel flat_json) (List.insertionSort entryLe flat_json)

end jsonplus

/-- Order on object entries by key string, used by the canonical
key-sorted form below. -/
def kvLe (a b : String × Json) : Prop := pyStrLt b.1 a.1 = false

instance : DecidableRel kvLe := fun _ _ =>
  inferInstanceAs (Decidable (_ = false))

mutual

def canon : Json → Json
  | .val v => .val v
  | .arr l => .arr (canonList l)
  | .obj kvs => .obj (List.insertionSort kvLe (canonKvs kvs))

def canonKvs : List (String × Json) → List (String × Json)
  | [] => []
  | kv :: rest => (kv.1, canon kv.2) :: canonKvs rest

def canonList : List Json → List Json
  | [] => []
  | v :: rest => canon v :: canonList rest

end

mutual

def wfJson : Json → Bool
  | .val _ => true
  | .arr l => wfList l
  | .obj kvs => decide ((kvs.map Prod.fst).Nodup) && wfKvs kvs

def wfKvs : List (String × Json) → Bool
  | [] => true
  | kv :: rest => wfJson kv.2 && wfKvs rest

def wfList : List Json → Bool
  | [] => true
  | v :: rest => wfJson v && wfList rest

end

mutual

def neJson : Json → Bool
  | .val _ => true
  | .arr l => decide (l ≠ []) && neList l
  | .obj kvs => decide (kvs ≠ []) && neKvs kvs

def neKvs : List (String × Json) → Bool
  | [] => true
  | kv :: rest => neJson kv.2 && neKvs rest

def neList : List Json → Bool
  | [] => true
  | v :: rest => neJson v && neList rest

end

/-- Strictly increasing chain of key strings. -/
def sortedStrictKeys : List String → Bool
  | [] => true
  | [_] => true
  | a :: b :: rest => pyStrLt a b && sortedStrictKeys (b :: rest)

mutual

def canonicalJson : Json → Bool
  | .val _ => true
  | .arr l => canonicalList l
  | .obj kvs => sortedStrictKeys (kvs.map Prod.fst) && canonicalKvs kvs

def canonicalKvs : List (String × Json) → Bool
  | [] => true
  | kv :: rest => canonicalJson kv.2 && canonicalKvs rest

def canonicalList : List Json → Bool
  | [] => true
  | v :: rest => canonicalJson v && canonicalList rest

end

mutual

/-- Fuel needed by `expandRec` to rebuild the flattening of a value. -/
def expandNeed : Json → Nat
  | .val _ => 1
  | .obj kvs => 1 + expandNeedKvs kvs
  | .arr l => 1 + expandNeedList l

def expandNeedKvs : List (String × Json) → Nat
  | [] => 1
  | kv :: rest => 1 + max (expandNeed kv.2) (expandNeedKvs rest)

def expandNeedList : List Json → Nat
  | [] => 1
  | v :: rest => 1 + max (expandNeed v) (expandNeedList rest)

end

/-- Python `==` between two JSON values, with recursion fuel (the entry
point passes the `jsonSize` of the left value, which bounds the
recursion depth): scalars compare structurally, lists compare
elementwise, dicts compare by equal length and per-key equal values —
insertion order is irrelevant, exactly as for Python dicts. -/
def pyJsonEqF : Nat → Json → Json → Bool
  | 0, _, _ => false
  | fuel + 1, .obj a, .obj b =>
      decide (a.length = b.length) &&
        a.all (fun kv =>
          match b.lookup kv.1 with
          | some w => pyJsonEqF fuel kv.2 w
          | none => false)
  | fuel + 1, .arr a, .arr b =>
      decide (a.length = b.length) &&
        (a.zip b).all (fun p => pyJsonEqF fuel p.1 p.2)
  | _ + 1, .val a, .val b => a == b
  | _ + 1, _, _ => false

/-- Python `==` between two JSON values. -/
def pyJsonEq (a b : Json) : Bool :=
  pyJsonEqF (parsing.jsonSize a) a b

/-- Does the root classify as Object or Array (not a Scalar)? -/
def rootIsContainer : Json → Bool
  | .val _ => false
  | _ => true

/-- A concrete value for the round-trip witness:
`{"b": [1, 2], "a": "x"}`. -/
def jexC5 : Json :=
  .obj [("b", .arr [.val (.i 1), .val (.i 2)]), ("a", .val (.s "x"))]

/-- Concrete record `{"color": "red", "size": 3}`. -/
def recRed3 : Json := .obj [("color", .val (.s "red")), ("size", .val (.i 3))]

/-- Concrete record `{"color": "blue", "size": 7}`. -/
def recBlue7 : Json := .obj [("color", .val (.s "blue")), ("size", .val (.i 7))]

/-- Concrete record `{"color": "red", "size": 9}`. -/
def recRed9 : Json := .obj [("color", .val (.s "red")), ("size", .val (.i 9))]

/-- A concrete database with an Option field on `color` and an Integer
field on `size` (both optional), holding the three records above. -/
def dbEx : jsondb.Database :=
  ⟨[recRed3, recBlue7, recRed9],
   [("color", .option [.str "color"] {Scalar.s "red", Scalar.s "blue"} true),
    ("size", .integer [.str "size"] (some 0) (some 10) true)]⟩

/-- Concrete criteria naming both fields: `color = "red"` (single
selection) and `size > 5`. -/
def criteriaEx : List (String × jsondb.Args) :=
  [("color", .option (.single (.s "red")) .OR true),
   ("size", .integer 5 .GT true)]

/-! ### Theorems -/

/-- The recursive `jsonpp.get` performs exactly the stepwise traversal:
subscripting the root with each segment in order. -/
theorem jsonpp.get_eq_walk (obj : Json) (k : Key) (ks : List Key) :
    jsonpp.get obj (k :: ks) = jsonplus.walk obj (k :: ks) := by
  induction ks generalizing obj k with
  | nil => simp [jsonpp.get, jsonplus.walk, List.foldlM]
  | cons k' ks ih =>
      simp only [jsonpp.get, jsonplus.walk, List.foldlM]
      cases jsonplus.pyIndex obj k with
      | ok o => simpa [jsonplus.walk, List.foldlM] using ih o k'
      | error e => rfl

/-- C1: claimed — `get(root, path)` returns the value reached by indexing
`root` with each segment in order, failing exactly when a segment is absent.
On root `{"a": {"b": 1}}` and path `a.b`, every segment is present and the
stepwise traversal (and `jsonpp.get`) reaches `1`, but `jsonplus.get`
raises `KeyError("a")`: after descending through `key[:-1]` it subscripts
the inner object `{"b": 1}` with `key[0] = "a"` instead of `key[-1] = "b"`.
The code contradicts the sibling implementation `jsonpp.get` of the same
documented operation: a slip (`key[0]` for `key[-1]`). -/
theorem C1_jsonplus_get_drops_last_segment :
    jsonplus.walk rootAB pathAB = .ok (.val (.i 1)) ∧
    jsonpp.get rootAB pathAB = .ok (.val (.i 1)) ∧
    jsonplus.get rootAB pathAB = .error (.keyError "a") := by
  refine ⟨rfl, rfl, rfl⟩

/-- C4 (counterexample): claimed — `has(root, path)` never raises.  On the
array root `[10]` with path `[1]` the index is out of range, `get` raises
`IndexError`, and `has` propagates it (its `except` clause only catches
`KeyError`); the same happens in both `jsonpp.has` and `jsonplus.has`. -/
theorem C4_has_propagates_indexerror :
    jsonpp.has (.arr [.val (.i 10)]) [.idx 1]
      = .error (.indexError "list index out of range") ∧
    jsonplus.has (.arr [.val (.i 10)]) [.idx 1]
      = .error (.indexError "list index out of range") := by
  refine ⟨rfl, rfl⟩

/-- C4 (amended): `has(root, path)` returns `true` exactly when `get`
succeeds and `false` exactly when `get` fails with a `KeyError`; any other
exception class (`IndexError` for out-of-range array indices, `TypeError`
for subscripting unsubscriptable values) propagates — it is not converted
to `false`. -/
theorem C4_has_eq_get_with_keyerror_to_false (root : Json) (path : List Key) :
    (jsonpp.has root path = .ok true ↔ ∃ v, jsonpp.get root path = .ok v) ∧
    (jsonpp.has root path = .ok false ↔
      ∃ m, jsonpp.get root path = .error (.keyError m)) ∧
    (∀ e : PyErr, e.isKeyError = false →
      (jsonpp.has root path = .error e ↔ jsonpp.get root path = .error e)) := by
  unfold jsonpp.has
  cases h : jsonpp.get root path with
  | ok v =>
      refine ⟨by simp, by simp, fun e he => by simp⟩
  | error e =>
      cases e with
      | keyError m =>
          refine ⟨by simp [PyErr.isKeyError], by simp [PyErr.isKeyError], ?_⟩
          intro e' he'
          constructor
          · intro hh
            simp [PyErr.isKeyError] at hh
          · intro hh
            cases hh
            simp [PyErr.isKeyError] at he'
      | indexError m => refine ⟨by simp [PyErr.isKeyError], by simp [PyErr.isKeyError], fun e' he' => by simp [PyErr.isKeyError]⟩
      | typeError m => refine ⟨by simp [PyErr.isKeyError], by simp [PyErr.isKeyError], fun e' he' => by simp [PyErr.isKeyError]⟩
      | valueError m => refine ⟨by simp [PyErr.isKeyError], by simp [PyErr.isKeyError], fun e' he' => by simp [PyErr.isKeyError]⟩
      | attributeError m => refine ⟨by simp [PyErr.isKeyError], by simp [PyErr.isKeyError], fun e' he' => by simp [PyErr.isKeyError]⟩
      | notAJsonType m => refine ⟨by simp [PyErr.isKeyError], by simp [PyErr.isKeyError], fun e' he' => by simp [PyErr.isKeyError]⟩

/-- Witness for the amended C4 statement: on the empty object and path
`x`, `get` fails with `KeyError("x")` and `has` accordingly returns
`false`. -/
theorem C4_has_eq_get_with_keyerror_to_false_witness :
    jsonpp.has (.obj []) [.str "x"] = .ok false :=
  ((C4_has_eq_get_with_keyerror_to_false (.obj []) [.str "x"]).2.1).mpr ⟨"x", rfl⟩

/-- C9: an `IntegerField` with bounds `min` and `max` rejects any criteria
value outside the inclusive range with a `ValueError` before any
comparison runs (for every record value, even non-integer ones), and for a
criteria value inside the range returns the boolean
`record_value <comparison> criteria_value` — a consistent
reject-not-clamp policy on every call (`bounded_value`, the clamping
helper, is never called by `test`). -/
theorem C9_integer_field_rejects_out_of_range (m M value : Int)
    (c : jsondb.Comparison) (jv : Json) :
    ((value < m ∨ M < value) →
      ∃ msg, jsondb.IntegerField.test (some m) (some M) jv value c
        = .error (.valueError msg)) ∧
    (m ≤ value → value ≤ M → ∀ n : Int,
      jsondb.IntegerField.test (some m) (some M) (.val (.i n)) value c
        = .ok (c.compareInt n value)) := by
  constructor
  · rintro (h | h)
    · exact ⟨"Invalid value, must be greater or equal to the minimum",
        by simp [jsondb.IntegerField.test, h]⟩
    · by_cases h2 : value < m
      · exact ⟨"Invalid value, must be greater or equal to the minimum",
          by simp [jsondb.IntegerField.test, h2]⟩
      · exact ⟨"Invalid value, must be less or equal to the maximum",
          by simp [jsondb.IntegerField.test, h2, h]⟩
  · intro h1 h2 n
    simp [jsondb.IntegerField.test, not_lt.2 h1, not_lt.2 h2,
      jsondb.Comparison.compare]

/-- Witness for C9 at the specification's example: bounds `[0, 10]`,
comparison `GT`, criteria value 5 accepts record 7 and rejects record 3,
and criteria value 15 fails with the validation error. -/
theorem C9_integer_field_rejects_out_of_range_witness :
    jsondb.IntegerField.test (some 0) (some 10) (.val (.i 7)) 5 .GT = .ok true ∧
    jsondb.IntegerField.test (some 0) (some 10) (.val (.i 3)) 5 .GT = .ok false ∧
    ∃ msg, jsondb.IntegerField.test (some 0) (some 10) (.val (.i 7)) 15 .GT
      = .error (.valueError msg) := by
  refine ⟨?_, ?_, ?_⟩
  · have h := (C9_integer_field_rejects_out_of_range 0 10 5 .GT (.val (.i 7))).2
      (by decide) (by decide) 7
    rw [h]
    rfl
  · have h := (C9_integer_field_rejects_out_of_range 0 10 5 .GT (.val (.i 3))).2
      (by decide) (by decide) 3
    rw [h]
    rfl
  · exact (C9_integer_field_rejects_out_of_range 0 10 15 .GT (.val (.i 7))).1
      (Or.inr (by decide))

/-- C3 (counterexample): claimed — for every record value, multi-selection
`AND` is true iff the intersection of the criteria set `S` with the record
value's set-representation equals `S`.  With universe
`{"red","blue","green"}`, criteria `S = {"red","green"}` (both inside the
universe) and the scalar record value `"red"`, the source's scalar branch
returns membership `"red" in S`, i.e. `True`, while the claimed
intersection formula gives `{"red"} ∩ S = S`, i.e. `False`. -/
theorem C3_option_multiselection_counterexample :
    jsondb.OptionField.test {Scalar.s "red", Scalar.s "blue", Scalar.s "green"}
      (.val (.s "red")) (.set {Scalar.s "red", Scalar.s "green"}) .AND
      = .ok true ∧
    jsondb.specSetRepr (.val (.s "red")) = .ok {Scalar.s "red"} ∧
    ¬ (({Scalar.s "red"} : Finset Scalar) ∩ {Scalar.s "red", Scalar.s "green"}
        = {Scalar.s "red", Scalar.s "green"}) := by
  refine ⟨by decide, by decide, by decide⟩

/-- C3 (amended): for multi-selection criteria `S` on an `OptionField`,
any criteria value outside the field's static `values` universe makes
`test` fail with a `ValueError` before any boolean is produced.  For
`S ⊆ values`: when the record value classifies as Array or Object, its
set-representation `R` (elements of the array, values of the object, all
necessarily scalar) is intersected with `S` — under `AND` the test is
`R ∩ S = S` and under `OR` it is `R ∩ S ≠ ∅` — but when the record value
is a scalar `v` the source takes a separate branch returning the
membership `v ∈ S` for both operators. -/
theorem C3_option_multiselection (values S : Finset Scalar) (jv : Json)
    (op : jsondb.Operator) :
    (¬ S ⊆ values →
      jsondb.OptionField.test values jv (.set S) op
        = .error (.valueError "Invalid test values, must be included in the field values")) ∧
    (S ⊆ values →
      (∀ v, jv = .val v →
        jsondb.OptionField.test values jv (.set S) op = .ok (decide (v ∈ S))) ∧
      (∀ l R, jv = .arr l → jsondb.toScalarSet l = .ok R →
        jsondb.OptionField.test values jv (.set S) op
          = .ok (match op with
              | .AND => decide (R ∩ S = S)
              | .OR => decide (R ∩ S ≠ ∅))) ∧
      (∀ kvs R, jv = .obj kvs → jsondb.toScalarSet (kvs.map Prod.snd) = .ok R →
        jsondb.OptionField.test values jv (.set S) op
          = .ok (match op with
              | .AND => decide (R ∩ S = S)
              | .OR => decide (R ∩ S ≠ ∅)))) := by
  constructor
  · intro h
    have hne : ¬ (S \ values = ∅) := fun hh =>
      h (Finset.sdiff_eq_empty_iff_subset.mp hh)
    simp [jsondb.OptionField.test, hne]
  · intro hS
    have hcond : ¬ (S \ values ≠ ∅) :=
      not_not_intro (Finset.sdiff_eq_empty_iff_subset.mpr hS)
    refine ⟨?_, ?_, ?_⟩
    · rintro v rfl
      simp [jsondb.OptionField.test, hcond]
    · rintro l R rfl hR
      cases op <;>
        (simp [jsondb.OptionField.test, hcond, jsondb.recordValueSet, hR]; rfl)
    · rintro kvs R rfl hR
      cases op <;>
        (simp [jsondb.OptionField.test, hcond, jsondb.recordValueSet, hR]; rfl)

/-- Witness for the amended C3 at the specification's example: universe
`{"red","blue","green"}`, record value `["red","blue"]`, criteria set
`{"red","green"}` — operator `OR` gives true, operator `AND` gives
false. -/
theorem C3_option_multiselection_witness :
    jsondb.OptionField.test {Scalar.s "red", Scalar.s "blue", Scalar.s "green"}
      (.arr [.val (.s "red"), .val (.s "blue")])
      (.set {Scalar.s "red", Scalar.s "green"}) .OR = .ok true ∧
    jsondb.OptionField.test {Scalar.s "red", Scalar.s "blue", Scalar.s "green"}
      (.arr [.val (.s "red"), .val (.s "blue")])
      (.set {Scalar.s "red", Scalar.s "green"}) .AND = .ok false := by
  constructor
  · have h := ((C3_option_multiselection
        {Scalar.s "red", Scalar.s "blue", Scalar.s "green"}
        {Scalar.s "red", Scalar.s "green"}
        (.arr [.val (.s "red"), .val (.s "blue")]) .OR).2 (by decide)).2.1
        [.val (.s "red"), .val (.s "blue")]
        (insert (Scalar.s "red") (insert (Scalar.s "blue") ∅)) rfl rfl
    rw [h]
    rfl
  · have h := ((C3_option_multiselection
        {Scalar.s "red", Scalar.s "blue", Scalar.s "green"}
        {Scalar.s "red", Scalar.s "green"}
        (.arr [.val (.s "red"), .val (.s "blue")]) .AND).2 (by decide)).2.1
        [.val (.s "red"), .val (.s "blue")]
        (insert (Scalar.s "red") (insert (Scalar.s "blue") ∅)) rfl rfl
    rw [h]
    rfl

/-- Helper: head-order asymmetry derived from transitivity and
irreflexivity. -/
theorem lexLike_rasymm {α : Type} (r : α → α → Bool)
    (rirrefl : ∀ a, r a a = false)
    (rtrans : ∀ a b c, r a b = true → r b c = true → r a c = true) :
    ∀ a b, r a b = true → r b a = false := by
  intro a b hab
  by_contra h
  have hba : r b a = true := by
    cases hr : r b a
    · exact absurd hr h
    · rfl
  have := rtrans a b a hab hba
  rw [rirrefl a] at this
  exact Bool.false_ne_true this

section LexOrder

variable {α : Type} [DecidableEq α]

/-- Helper: irreflexivity of a lexicographic list order. -/
theorem lexLike_irrefl (r : α → α → Bool) (f : List α → List α → Bool)
    (hnilnil : f [] [] = false)
    (hcons : ∀ a as b bs, f (a :: as) (b :: bs) = if a = b then f as bs else r a b) :
    ∀ l, f l l = false := by
  intro l
  induction l with
  | nil => exact hnilnil
  | cons a as ih => rw [hcons, if_pos rfl]; exact ih

/-- Helper: transitivity of a lexicographic list order. -/
theorem lexLike_trans (r : α → α → Bool) (f : List α → List α → Bool)
    (hnilnil : f [] [] = false)
    (hnilcons : ∀ b bs, f [] (b :: bs) = true)
    (hconsnil : ∀ a as, f (a :: as) [] = false)
    (hcons : ∀ a as b bs, f (a :: as) (b :: bs) = if a = b then f as bs else r a b)
    (rirrefl : ∀ a, r a a = false)
    (rtrans : ∀ a b c, r a b = true → r b c = true → r a c = true) :
    ∀ a b c, f a b = true → f b c = true → f a c = true := by
  intro a
  induction a with
  | nil =>
      intro b c hab hbc
      cases b with
      | nil => rw [hnilnil] at hab; exact absurd hab Bool.false_ne_true
      | cons y ys =>
          cases c with
          | nil => rw [hconsnil] at hbc; exact absurd hbc Bool.false_ne_true
          | cons z zs => exact hnilcons z zs
  | cons x xs ih =>
      intro b c hab hbc
      cases b with
      | nil => rw [hconsnil] at hab; exact absurd hab Bool.false_ne_true
      | cons y ys =>
          cases c with
          | nil => rw [hconsnil] at hbc; exact absurd hbc Bool.false_ne_true
          | cons z zs =>
              rw [hcons] at hab hbc ⊢
              by_cases hxy : x = y
              · subst hxy
                rw [if_pos rfl] at hab
                by_cases hyz : x = z
                · subst hyz
                  rw [if_pos rfl] at hbc ⊢
                  exact ih ys zs hab hbc
                · rw [if_neg hyz] at hbc ⊢
                  exact hbc
              · rw [if_neg hxy] at hab
                by_cases hyz : y = z
                · subst hyz
                  rw [if_neg hxy]
                  exact hab
                · rw [if_neg hyz] at hbc
                  have hxz : r x z = true := rtrans x y z hab hbc
                  by_cases hxz' : x = z
                  · subst hxz'
                    rw [rirrefl] at hxz
                    exact absurd hxz Bool.false_ne_true
                  · rw [if_neg hxz']
                    exact hxz

/-- Helper: two lists neither of which is lexicographically smaller are
equal. -/
theorem lexLike_conn (r : α → α → Bool) (f : List α → List α → Bool)
    (hnilcons : ∀ b bs, f [] (b :: bs) = true)
    (hcons : ∀ a as b bs, f (a :: as) (b :: bs) = if a = b then f as bs else r a b)
    (rconn : ∀ a b, r a b = false → r b a = false → a = b) :
    ∀ a b, f a b = false → f b a = false → a = b := by
  intro a
  induction a with
  | nil =>
      intro b hab _
      cases b with
      | nil => rfl
      | cons y ys =>
          rw [hnilcons] at hab
          exact Bool.noConfusion hab -- placeholder
  | cons x xs ih =>
      intro b hab hba
      cases b with
      | nil =>
          rw [hnilcons] at hba
          exact Bool.noConfusion hba
      | cons y ys =>
          rw [hcons] at hab hba
          by_cases hxy : x = y
          · subst hxy
            rw [if_pos rfl] at hab hba
            rw [ih ys hab hba]
          · rw [if_neg hxy] at hab
            rw [if_neg (Ne.symm hxy)] at hba
            exact absurd (rconn x y hab hba) hxy

end LexOrder

/-- Helper: character order irreflexivity, packaged for `charsLt`. -/
theorem charLt_irrefl : ∀ a : Char, decide (a < a) = false := by
  intro a
  simp

/-- Helper: character order transitivity, packaged for `charsLt`. -/
theorem charLt_trans : ∀ a b c : Char,
    decide (a < b) = true → decide (b < c) = true → decide (a < c) = true := by
  intro a b c hab hbc
  simp only [decide_eq_true_eq] at hab hbc ⊢
  exact lt_trans hab hbc

/-- Helper: characters neither of which is smaller are equal. -/
theorem charLt_conn : ∀ a b : Char,
    decide (a < b) = false → decide (b < a) = false → a = b := by
  intro a b hab hba
  simp only [decide_eq_false_iff_not, not_lt] at hab hba
  exact le_antisymm hba hab

/-- Helper: `charsLt` is irreflexive. -/
theorem charsLt_irrefl : ∀ l, charsLt l l = false :=
  lexLike_irrefl (fun a b => decide (a < b)) charsLt rfl
    (fun _ _ _ _ => rfl)

/-- Helper: `charsLt` is transitive. -/
theorem charsLt_trans : ∀ a b c,
    charsLt a b = true → charsLt b c = true → charsLt a c = true :=
  lexLike_trans (fun a b => decide (a < b)) charsLt rfl
    (fun _ _ => rfl) (fun _ _ => rfl) (fun _ _ _ _ => rfl)
    charLt_irrefl charLt_trans

/-- Helper: character lists neither of which is smaller are equal. -/
theorem charsLt_conn : ∀ a b,
    charsLt a b = false → charsLt b a = false → a = b :=
  lexLike_conn (fun a b => decide (a < b)) charsLt
    (fun _ _ => rfl) (fun _ _ _ _ => rfl) charLt_conn

/-- Helper: `pyStrLt` is irreflexive. -/
theorem pyStrLt_irrefl (a : String) : pyStrLt a a = false :=
  charsLt_irrefl a.data

/-- Helper: `pyStrLt` is transitive. -/
theorem pyStrLt_trans (a b c : String) :
    pyStrLt a b = true → pyStrLt b c = true → pyStrLt a c = true :=
  charsLt_trans a.data b.data c.data

/-- Helper: strings neither of which is smaller are equal. -/
theorem pyStrLt_conn (a b : String) :
    pyStrLt a b = false → pyStrLt b a = false → a = b := by
  intro h1 h2
  cases a with
  | mk da =>
      cases b with
      | mk db =>
          rw [charsLt_conn da db h1 h2]

/-- Helper: `keyLtB` is irreflexive. -/
theorem keyLtB_irrefl : ∀ k, jsonplus.keyLtB k k = false
  | .idx i => by simp [jsonplus.keyLtB]
  | .str s => pyStrLt_irrefl s

/-- Helper: `keyLtB` is transitive. -/
theorem keyLtB_trans : ∀ a b c, jsonplus.keyLtB a b = true →
    jsonplus.keyLtB b c = true → jsonplus.keyLtB a c = true
  | .idx i, .idx j, .idx k => by
      simp only [jsonplus.keyLtB, decide_eq_true_eq]
      omega
  | .str a, .str b, .str c => pyStrLt_trans a b c
  | .idx _, .idx _, .str _ => fun _ _ => rfl
  | .idx _, .str _, .str _ => fun _ _ => rfl
  | .idx _, .str _, .idx _ => fun _ h => Bool.noConfusion h
  | .str _, .idx _, _ => fun h _ => Bool.noConfusion h
  | .str _, .str _, .idx _ => fun _ h => Bool.noConfusion h

/-- Helper: keys neither of which is smaller are equal. -/
theorem keyLtB_conn : ∀ a b, jsonplus.keyLtB a b = false →
    jsonplus.keyLtB b a = false → a = b
  | .idx i, .idx j => by
      simp only [jsonplus.keyLtB, decide_eq_false_iff_not, not_lt]
      intro h1 h2
      have : i = j := le_antisymm h2 h1
      rw [this]
  | .str a, .str b => fun h1 h2 => by rw [pyStrLt_conn a b h1 h2]
  | .idx _, .str _ => fun h _ => Bool.noConfusion h
  | .str _, .idx _ => fun _ h => Bool.noConfusion h

/-- Helper: `pathLtB` is irreflexive. -/
theorem pathLtB_irrefl : ∀ p, jsonplus.pathLtB p p = false :=
  lexLike_irrefl jsonplus.keyLtB jsonplus.pathLtB rfl (fun _ _ _ _ => rfl)

/-- Helper: `pathLtB` is transitive. -/
theorem pathLtB_trans : ∀ a b c, jsonplus.pathLtB a b = true →
    jsonplus.pathLtB b c = true → jsonplus.pathLtB a c = true :=
  lexLike_trans jsonplus.keyLtB jsonplus.pathLtB rfl
    (fun _ _ => rfl) (fun _ _ => rfl) (fun _ _ _ _ => rfl)
    keyLtB_irrefl keyLtB_trans

/-- Helper: paths neither of which is smaller are equal. -/
theorem pathLtB_conn : ∀ a b, jsonplus.pathLtB a b = false →
    jsonplus.pathLtB b a = false → a = b :=
  lexLike_conn jsonplus.keyLtB jsonplus.pathLtB
    (fun _ _ => rfl) (fun _ _ _ _ => rfl) keyLtB_conn

/-- Helper: `pathLtB` is asymmetric. -/
theorem pathLtB_asymm : ∀ a b, jsonplus.pathLtB a b = true →
    jsonplus.pathLtB b a = false := by
  intro a b hab
  cases hba : jsonplus.pathLtB b a
  · rfl
  · have := pathLtB_trans a b a hab hba
    rw [pathLtB_irrefl a] at this
    exact absurd this Bool.false_ne_true

/-- Helper: a common prefix does not affect the path order. -/
theorem pathLtB_append : ∀ (ks p q : List Key),
    jsonplus.pathLtB (ks ++ p) (ks ++ q) = jsonplus.pathLtB p q := by
  intro ks
  induction ks with
  | nil => intro p q; rfl
  | cons k ks ih =>
      intro p q
      show jsonplus.pathLtB (k :: (ks ++ p)) (k :: (ks ++ q)) = _
      rw [jsonplus.pathLtB, if_pos rfl, ih]

mutual

theorem flattenJson_shift : ∀ (keys : List Key) (j : Json),
    jsonplus.flattenJson keys j
      = (jsonplus.flattenJson [] j).map (fun e => (keys ++ e.1, e.2))
  | keys, .val v => by simp [jsonplus.flattenJson]
  | keys, .obj kvs => flattenObj_shift keys kvs
  | keys, .arr l => flattenArr_shift keys 0 l

theorem flattenObj_shift : ∀ (keys : List Key) (kvs : List (String × Json)),
    jsonplus.flattenObj keys kvs
      = (jsonplus.flattenObj [] kvs).map (fun e => (keys ++ e.1, e.2))
  | _, [] => by simp [jsonplus.flattenObj]
  | keys, kv :: rest => by
      rw [jsonplus.flattenObj, jsonplus.flattenObj,
        flattenJson_shift (keys ++ [Key.str kv.1]) kv.2,
        flattenJson_shift ([] ++ [Key.str kv.1]) kv.2,
        flattenObj_shift keys rest]
      simp [List.map_map, Function.comp_def, List.append_assoc]

theorem flattenArr_shift : ∀ (keys : List Key) (i : Nat) (l : List Json),
    jsonplus.flattenArr keys i l
      = (jsonplus.flattenArr [] i l).map (fun e => (keys ++ e.1, e.2))
  | _, _, [] => by simp [jsonplus.flattenArr]
  | keys, i, v :: rest => by
      rw [jsonplus.flattenArr, jsonplus.flattenArr,
        flattenJson_shift (keys ++ [Key.idx i]) v,
        flattenJson_shift ([] ++ [Key.idx i]) v,
        flattenArr_shift keys (i + 1) rest]
      simp [List.map_map, Function.comp_def, List.append_assoc]

end

/-- Helper: the flattening of a value all of whose containers are
non-empty is non-empty. -/
theorem flattenJson_ne : ∀ (keys : List Key) (j : Json), neJson j = true →
    jsonplus.flattenJson keys j ≠ []
  | _, .val _, _ => by simp [jsonplus.flattenJson]
  | keys, .obj kvs, h => by
      show jsonplus.flattenObj keys kvs ≠ []
      cases kvs with
      | nil => simp [neJson] at h
      | cons kv rest =>
          have h2 : neJson kv.2 = true := by
            rw [neJson, neKvs] at h
            exact (Bool.and_eq_true_iff.mp
              (Bool.and_eq_true_iff.mp h).2).1
          rw [jsonplus.flattenObj]
          intro hemp
          exact flattenJson_ne _ kv.2 h2 (List.append_eq_nil.mp hemp).1
  | keys, .arr l, h => by
      show jsonplus.flattenArr keys 0 l ≠ []
      cases l with
      | nil => simp [neJson] at h
      | cons v rest =>
          have h2 : neJson v = true := by
            rw [neJson, neList] at h
            exact (Bool.and_eq_true_iff.mp
              (Bool.and_eq_true_iff.mp h).2).1
          rw [jsonplus.flattenArr]
          intro hemp
          exact flattenJson_ne _ v h2 (List.append_eq_nil.mp hemp).1

/-- Helper: the object flattening as a `flatMap` over the entries. -/
theorem flattenObj_eq_flatMap (keys : List Key) (kvs : List (String × Json)) :
    jsonplus.flattenObj keys kvs
      = kvs.flatMap (fun kv => jsonplus.flattenJson (keys ++ [.str kv.1]) kv.2) := by
  induction kvs with
  | nil => rfl
  | cons kv rest ih => rw [jsonplus.flattenObj, ih]; rfl

/-- Helper: `canonKvs` is a `map`. -/
theorem canonKvs_eq_map (kvs : List (String × Json)) :
    canonKvs kvs = kvs.map (fun kv => (kv.1, canon kv.2)) := by
  induction kvs with
  | nil => rfl
  | cons kv rest ih => rw [canonKvs, ih]; rfl

/-- Helper: `canonList` is a `map`. -/
theorem canonList_eq_map (l : List Json) : canonList l = l.map canon := by
  induction l with
  | nil => rfl
  | cons v rest ih => rw [canonList, ih]; rfl

mutual

/-- Helper: canonicalization permutes the flattening. -/
theorem canon_flatten_perm : ∀ j : Json,
    (jsonplus.flattenJson [] (canon j)).Perm (jsonplus.flattenJson [] j)
  | .val v => List.Perm.refl _
  | .obj kvs => by
      show (jsonplus.flattenObj [] (List.insertionSort kvLe (canonKvs kvs))).Perm
        (jsonplus.flattenObj [] kvs)
      rw [flattenObj_eq_flatMap, flattenObj_eq_flatMap]
      refine List.Perm.trans
        (List.Perm.flatMap_right _ (List.perm_insertionSort kvLe (canonKvs kvs)))
        ?_
      exact canon_flatten_perm_kvs kvs
  | .arr l => by
      show (jsonplus.flattenArr [] 0 (canonList l)).Perm
        (jsonplus.flattenArr [] 0 l)
      exact canon_flatten_perm_arr 0 l

theorem canon_flatten_perm_kvs : ∀ (kvs : List (String × Json)),
    ((canonKvs kvs).flatMap
        (fun kv => jsonplus.flattenJson ([] ++ [.str kv.1]) kv.2)).Perm
      (kvs.flatMap (fun kv => jsonplus.flattenJson ([] ++ [.str kv.1]) kv.2))
  | [] => List.Perm.refl _
  | kv :: rest => by
      rw [canonKvs]
      simp only [List.flatMap_cons]
      refine List.Perm.append ?_ (canon_flatten_perm_kvs rest)
      rw [flattenJson_shift ([] ++ [Key.str kv.1]) (canon kv.2),
        flattenJson_shift ([] ++ [Key.str kv.1]) kv.2]
      exact (canon_flatten_perm kv.2).map _

theorem canon_flatten_perm_arr : ∀ (i : Nat) (l : List Json),
    (jsonplus.flattenArr [] i (canonList l)).Perm (jsonplus.flattenArr [] i l)
  | _, [] => List.Perm.refl _
  | i, v :: rest => by
      rw [canonList]
      rw [jsonplus.flattenArr, jsonplus.flattenArr]
      refine List.Perm.append ?_ (canon_flatten_perm_arr (i + 1) rest)
      rw [flattenJson_shift ([] ++ [Key.idx i]) (canon v),
        flattenJson_shift ([] ++ [Key.idx i]) v]
      exact (canon_flatten_perm v).map _

end

/-- Helper: `pyStrLt` asymmetry. -/
theorem pyStrLt_asymm (a b : String) (h : pyStrLt a b = true) :
    pyStrLt b a = false := by
  cases hba : pyStrLt b a
  · rfl
  · have := pyStrLt_trans a b a h hba
    rw [pyStrLt_irrefl a] at this
    exact absurd this Bool.false_ne_true

/-- Helper: `neKvs` means every entry's value has non-empty containers. -/
theorem neKvs_iff (kvs : List (String × Json)) :
    neKvs kvs = true ↔ ∀ kv ∈ kvs, neJson kv.2 = true := by
  induction kvs with
  | nil => simp [neKvs]
  | cons kv rest ih =>
      rw [neKvs, Bool.and_eq_true_iff, ih]
      simp

/-- Helper: `neList` means every element has non-empty containers. -/
theorem neList_iff (l : List Json) :
    neList l = true ↔ ∀ v ∈ l, neJson v = true := by
  induction l with
  | nil => simp [neList]
  | cons v rest ih =>
      rw [neList, Bool.and_eq_true_iff, ih]
      simp

/-- Helper: `canonicalKvs` means every entry's value is canonical. -/
theorem canonicalKvs_iff (kvs : List (String × Json)) :
    canonicalKvs kvs = true ↔ ∀ kv ∈ kvs, canonicalJson kv.2 = true := by
  induction kvs with
  | nil => simp [canonicalKvs]
  | cons kv rest ih =>
      rw [canonicalKvs, Bool.and_eq_true_iff, ih]
      simp

/-- Helper: `canonicalList` means every element is canonical. -/
theorem canonicalList_iff (l : List Json) :
    canonicalList l = true ↔ ∀ v ∈ l, canonicalJson v = true := by
  induction l with
  | nil => simp [canonicalList]
  | cons v rest ih =>
      rw [canonicalList, Bool.and_eq_true_iff, ih]
      simp

/-- Helper: `wfKvs` means every entry's value is well-formed. -/
theorem wfKvs_iff (kvs : List (String × Json)) :
    wfKvs kvs = true ↔ ∀ kv ∈ kvs, wfJson kv.2 = true := by
  induction kvs with
  | nil => simp [wfKvs]
  | cons kv rest ih =>
      rw [wfKvs, Bool.and_eq_true_iff, ih]
      simp

/-- Helper: `wfList` means every element is well-formed. -/
theorem wfList_iff (l : List Json) :
    wfList l = true ↔ ∀ v ∈ l, wfJson v = true := by
  induction l with
  | nil => simp [wfList]
  | cons v rest ih =>
      rw [wfList, Bool.and_eq_true_iff, ih]
      simp

/-- Helper: `canonKvs` keeps the keys. -/
theorem canonKvs_keys (kvs : List (String × Json)) :
    (canonKvs kvs).map Prod.fst = kvs.map Prod.fst := by
  rw [canonKvs_eq_map]
  simp

mutual

/-- Helper: canonicalization preserves container non-emptiness. -/
theorem canon_ne : ∀ j : Json, neJson j = true → neJson (canon j) = true
  | .val _, _ => rfl
  | .obj kvs, h => by
      rw [neJson] at h
      obtain ⟨hne, hk⟩ := Bool.and_eq_true_iff.mp h
      show neJson (.obj (List.insertionSort kvLe (canonKvs kvs))) = true
      rw [neJson, Bool.and_eq_true_iff]
      have hekvs := canon_neKvs kvs hk
      constructor
      · simp only [decide_eq_true_eq] at hne ⊢
        intro hemp
        have hlen := (List.perm_insertionSort kvLe (canonKvs kvs)).length_eq
        rw [hemp, canonKvs_eq_map] at hlen
        simp only [List.length_nil, List.length_map] at hlen
        exact hne (List.length_eq_zero.mp hlen.symm)
      · rw [neKvs_iff]
        intro kv hkv
        exact (neKvs_iff (canonKvs kvs)).mp hekvs kv
          ((List.perm_insertionSort kvLe (canonKvs kvs)).mem_iff.mp hkv)
  | .arr l, h => by
      rw [neJson] at h
      obtain ⟨hne, hk⟩ := Bool.and_eq_true_iff.mp h
      show neJson (.arr (canonList l)) = true
      rw [neJson, Bool.and_eq_true_iff]
      refine ⟨?_, canon_neList l hk⟩
      simp only [decide_eq_true_eq] at hne ⊢
      rw [canonList_eq_map]
      simpa using hne

theorem canon_neKvs : ∀ kvs : List (String × Json), neKvs kvs = true →
    neKvs (canonKvs kvs) = true
  | [], _ => rfl
  | kv :: rest, h => by
      rw [neKvs] at h
      obtain ⟨h1, h2⟩ := Bool.and_eq_true_iff.mp h
      rw [canonKvs, neKvs, Bool.and_eq_true_iff]
      exact ⟨canon_ne kv.2 h1, canon_neKvs rest h2⟩

theorem canon_neList : ∀ l : List Json, neList l = true →
    neList (canonList l) = true
  | [], _ => rfl
  | v :: rest, h => by
      rw [neList] at h
      obtain ⟨h1, h2⟩ := Bool.and_eq_true_iff.mp h
      rw [canonList, neList, Bool.and_eq_true_iff]
      exact ⟨canon_ne v h1, canon_neList rest h2⟩

end

/-- Helper: a pairwise non-strictly-sorted entry list with duplicate-free
keys has strictly increasing keys. -/
theorem sortedStrict_of_pairwise_nodup :
    ∀ l : List (String × Json), List.Pairwise kvLe l →
      ((l.map Prod.fst).Nodup) → sortedStrictKeys (l.map Prod.fst) = true := by
  intro l
  induction l with
  | nil => intro _ _; rfl
  | cons a rest ih =>
      intro hp hnd
      rcases List.pairwise_cons.mp hp with ⟨ha, hrest⟩
      rw [List.map_cons] at hnd
      rcases List.nodup_cons.mp hnd with ⟨hna, hndr⟩
      cases rest with
      | nil => rfl
      | cons b rest2 =>
          show sortedStrictKeys (a.1 :: b.1 :: _) = true
          rw [sortedStrictKeys, Bool.and_eq_true_iff]
          refine ⟨?_, ih hrest hndr⟩
          have hle : pyStrLt b.1 a.1 = false := ha b (by simp)
          have hne : a.1 ≠ b.1 := by
            intro hh
            apply hna
            rw [List.map_cons, hh]
            exact List.mem_cons_self _ _
          cases hab : pyStrLt a.1 b.1
          · exact absurd (pyStrLt_conn a.1 b.1 hab hle) hne
          · rfl

mutual

/-- Helper: canonicalization of a well-formed value is canonical (objects
strictly key-sorted throughout). -/
theorem canon_canonical : ∀ j : Json, wfJson j = true →
    canonicalJson (canon j) = true
  | .val _, _ => rfl
  | .obj kvs, h => by
      rw [wfJson] at h
      obtain ⟨hnd, hk⟩ := Bool.and_eq_true_iff.mp h
      show canonicalJson (.obj (List.insertionSort kvLe (canonKvs kvs))) = true
      rw [canonicalJson, Bool.and_eq_true_iff]
      have hckvs := canon_canonicalKvs kvs hk
      constructor
      · haveI : IsTotal (String × Json) kvLe := ⟨by
          intro a b
          cases hab : pyStrLt b.1 a.1
          · exact Or.inl hab
          · exact Or.inr (pyStrLt_asymm b.1 a.1 hab)⟩
        haveI : IsTrans (String × Json) kvLe := ⟨by
          intro a b c hab hbc
          show pyStrLt c.1 a.1 = false
          by_cases hbc2 : b.1 = c.1
          · rw [← hbc2]
            exact hab
          · have hcb : pyStrLt b.1 c.1 = true := by
              cases hx : pyStrLt b.1 c.1
              · exact absurd (pyStrLt_conn b.1 c.1 hx hbc) hbc2
              · rfl
            cases hca : pyStrLt c.1 a.1
            · rfl
            · have hba := pyStrLt_trans b.1 c.1 a.1 hcb hca
              rw [hab] at hba
              exact absurd hba Bool.false_ne_true⟩
        have hsorted := List.sorted_insertionSort kvLe (canonKvs kvs)
        have hnd2 : ((List.insertionSort kvLe (canonKvs kvs)).map Prod.fst).Nodup := by
          have hperm := (List.perm_insertionSort kvLe (canonKvs kvs)).map Prod.fst
          rw [hperm.nodup_iff, canonKvs_keys]
          simpa using hnd
        exact sortedStrict_of_pairwise_nodup _ hsorted hnd2
      · rw [canonicalKvs_iff]
        intro kv hkv
        exact (canonicalKvs_iff (canonKvs kvs)).mp hckvs kv
          ((List.perm_insertionSort kvLe (canonKvs kvs)).mem_iff.mp hkv)
  | .arr l, h => by
      rw [wfJson] at h
      show canonicalJson (.arr (canonList l)) = true
      rw [canonicalJson]
      exact canon_canonicalList l h

theorem canon_canonicalKvs : ∀ kvs : List (String × Json), wfKvs kvs = true →
    canonicalKvs (canonKvs kvs) = true
  | [], _ => rfl
  | kv :: rest, h => by
      rw [wfKvs] at h
      obtain ⟨h1, h2⟩ := Bool.and_eq_true_iff.mp h
      rw [canonKvs, canonicalKvs, Bool.and_eq_true_iff]
      exact ⟨canon_canonical kv.2 h1, canon_canonicalKvs rest h2⟩

theorem canon_canonicalList : ∀ l : List Json, wfList l = true →
    canonicalList (canonList l) = true
  | [], _ => rfl
  | v :: rest, h => by
      rw [wfList] at h
      obtain ⟨h1, h2⟩ := Bool.and_eq_true_iff.mp h
      rw [canonList, canonicalList, Bool.and_eq_true_iff]
      exact ⟨canon_canonical v h1, canon_canonicalList rest h2⟩

end

/-- Helper: every entry of an object flattening starts with one of the
object's keys. -/
theorem flattenObj_mem_shape : ∀ (kvs : List (String × Json)) (e),
    e ∈ jsonplus.flattenObj [] kvs →
    ∃ k p, k ∈ kvs.map Prod.fst ∧ e.1 = Key.str k :: p := by
  intro kvs
  induction kvs with
  | nil =>
      intro e he
      simp [jsonplus.flattenObj] at he
  | cons kv rest ih =>
      intro e he
      rw [jsonplus.flattenObj] at he
      rcases List.mem_append.mp he with h | h
      · rw [flattenJson_shift] at h
        obtain ⟨e0, _, rfl⟩ := List.mem_map.mp h
        exact ⟨kv.1, e0.1, by simp, rfl⟩
      · obtain ⟨k, p, hk, hp⟩ := ih e h
        refine ⟨k, p, ?_, hp⟩
        rw [List.map_cons]
        exact List.mem_cons_of_mem _ hk

/-- Helper: every entry of an array flattening from start index `i`
starts with an index at least `i`. -/
theorem flattenArr_mem_shape : ∀ (i : Nat) (l : List Json) (e),
    e ∈ jsonplus.flattenArr [] i l →
    ∃ j p, i ≤ j ∧ e.1 = Key.idx j :: p := by
  intro i l
  induction l generalizing i with
  | nil =>
      intro e he
      simp [jsonplus.flattenArr] at he
  | cons v rest ih =>
      intro e he
      rw [jsonplus.flattenArr] at he
      rcases List.mem_append.mp he with h | h
      · rw [flattenJson_shift] at h
        obtain ⟨e0, _, rfl⟩ := List.mem_map.mp h
        exact ⟨i, e0.1, le_refl i, rfl⟩
      · obtain ⟨j, p, hj, hp⟩ := ih (i + 1) e h
        exact ⟨j, p, by omega, hp⟩

/-- Helper: a strict key chain drops its head. -/
theorem sortedStrict_tail : ∀ (k : String) (ks : List String),
    sortedStrictKeys (k :: ks) = true → sortedStrictKeys ks = true
  | _, [], _ => rfl
  | _, _ :: _, h => (Bool.and_eq_true_iff.mp h).2

/-- Helper: the head of a strict key chain is below every later key. -/
theorem sortedStrict_head_lt : ∀ (k : String) (ks : List String),
    sortedStrictKeys (k :: ks) = true → ∀ k' ∈ ks, pyStrLt k k' = true := by
  intro k ks
  induction ks generalizing k with
  | nil =>
      intro _ k' h'
      simp at h'
  | cons b rest ih =>
      intro h k' hk'
      obtain ⟨h1, h2⟩ := Bool.and_eq_true_iff.mp h
      rcases List.mem_cons.mp hk' with rfl | hk'
      · exact h1
      · exact pyStrLt_trans k b k' h1 (ih b h2 k' hk')

mutual

/-- Helper: the flattening of a canonical value is strictly sorted by
path. -/
theorem canonical_flatten_sorted : ∀ j : Json, canonicalJson j = true →
    List.Pairwise jsonplus.entryLt (jsonplus.flattenJson [] j)
  | .val _, _ => by simp [jsonplus.flattenJson]
  | .obj kvs, h => by
      obtain ⟨hs, hc⟩ := Bool.and_eq_true_iff.mp h
      exact canonical_flatten_sorted_obj kvs hs hc
  | .arr l, h => canonical_flatten_sorted_arr 0 l h

theorem canonical_flatten_sorted_obj : ∀ kvs : List (String × Json),
    sortedStrictKeys (kvs.map Prod.fst) = true → canonicalKvs kvs = true →
    List.Pairwise jsonplus.entryLt (jsonplus.flattenObj [] kvs)
  | [], _, _ => by simp [jsonplus.flattenObj]
  | kv :: rest, hs, hc => by
      obtain ⟨h1, h2⟩ := Bool.and_eq_true_iff.mp hc
      rw [jsonplus.flattenObj, List.pairwise_append]
      refine ⟨?_, canonical_flatten_sorted_obj rest
        (sortedStrict_tail kv.1 (rest.map Prod.fst) hs) h2, ?_⟩
      · rw [flattenJson_shift, List.pairwise_map]
        refine (canonical_flatten_sorted kv.2 h1).imp ?_
        intro a b hab
        show jsonplus.pathLtB (([] ++ [Key.str kv.1]) ++ a.1)
          (([] ++ [Key.str kv.1]) ++ b.1) = true
        rw [pathLtB_append]
        exact hab
      · intro a ha b hb
        rw [flattenJson_shift] at ha
        obtain ⟨a0, _, rfl⟩ := List.mem_map.mp ha
        obtain ⟨k', q, hk', hq⟩ := flattenObj_mem_shape rest b hb
        have hlt : pyStrLt kv.1 k' = true :=
          sortedStrict_head_lt kv.1 (rest.map Prod.fst) hs k' hk'
        show jsonplus.pathLtB (Key.str kv.1 :: a0.1) b.1 = true
        rw [hq]
        have hne : Key.str kv.1 ≠ Key.str k' := by
          intro hh
          have h3 := Key.str.inj hh
          rw [h3, pyStrLt_irrefl k'] at hlt
          exact Bool.noConfusion hlt
        show (if Key.str kv.1 = Key.str k' then jsonplus.pathLtB a0.1 q
              else jsonplus.keyLtB (Key.str kv.1) (Key.str k')) = true
        rw [if_neg hne]
        exact hlt

theorem canonical_flatten_sorted_arr : ∀ (i : Nat) (l : List Json),
    canonicalList l = true →
    List.Pairwise jsonplus.entryLt (jsonplus.flattenArr [] i l)
  | _, [], _ => by simp [jsonplus.flattenArr]
  | i, v :: rest, h => by
      obtain ⟨h1, h2⟩ := Bool.and_eq_true_iff.mp h
      rw [jsonplus.flattenArr, List.pairwise_append]
      refine ⟨?_, canonical_flatten_sorted_arr (i + 1) rest h2, ?_⟩
      · rw [flattenJson_shift, List.pairwise_map]
        refine (canonical_flatten_sorted v h1).imp ?_
        intro a b hab
        show jsonplus.pathLtB (([] ++ [Key.idx i]) ++ a.1)
          (([] ++ [Key.idx i]) ++ b.1) = true
        rw [pathLtB_append]
        exact hab
      · intro a ha b hb
        rw [flattenJson_shift] at ha
        obtain ⟨a0, _, rfl⟩ := List.mem_map.mp ha
        obtain ⟨j, q, hj, hq⟩ := flattenArr_mem_shape (i + 1) rest b hb
        show jsonplus.pathLtB (Key.idx i :: a0.1) b.1 = true
        rw [hq]
        have hne : Key.idx i ≠ Key.idx j := by
          intro hh
          have h3 := Key.idx.inj hh
          omega
        show (if Key.idx i = Key.idx j then jsonplus.pathLtB a0.1 q
              else jsonplus.keyLtB (Key.idx i) (Key.idx j)) = true
        rw [if_neg hne]
        show decide (i < j) = true
        simp only [decide_eq_true_eq]
        omega

end

/-- Helper: a binding in a dict with duplicate-free keys is what `lookup`
finds. -/
theorem lookup_of_mem_nodup : ∀ (kvs : List (String × Json)) (k : String)
    (v : Json), (kvs.map Prod.fst).Nodup → (k, v) ∈ kvs →
    kvs.lookup k = some v := by
  intro kvs
  induction kvs with
  | nil =>
      intro k v _ hm
      simp at hm
  | cons kv rest ih =>
      rcases kv with ⟨k0, v0⟩
      intro k v hnd hm
      rw [List.map_cons] at hnd
      rcases List.nodup_cons.mp hnd with ⟨hna, hndr⟩
      rcases List.mem_cons.mp hm with heq | hm'
      · rcases Prod.mk.injEq .. ▸ heq with ⟨h1, h2⟩
        subst h1
        subst h2
        simp [List.lookup_cons]
      · have hkne : (k == k0) = false := by
          rw [beq_eq_false_iff_ne]
          intro hh
          apply hna
          subst hh
          exact List.mem_map.mpr ⟨(k, v), hm', rfl⟩
        rw [List.lookup_cons, hkne]
        exact ih k v hndr hm'

/-- Helper: every JSON value has positive size. -/
theorem jsonSize_pos : ∀ j : Json, 1 ≤ parsing.jsonSize j
  | .val _ => le_refl 1
  | .obj kvs => by
      show 1 ≤ 1 + parsing.jsonSizeKvs kvs
      omega
  | .arr l => by
      show 1 ≤ 1 + parsing.jsonSizeList l
      omega

/-- Helper: the entry sizes as a mapped sum. -/
theorem jsonSizeKvs_eq_sum (kvs : List (String × Json)) :
    parsing.jsonSizeKvs kvs
      = (kvs.map (fun kv => 1 + parsing.jsonSize kv.2)).sum := by
  induction kvs with
  | nil => rfl
  | cons kv rest ih =>
      rw [parsing.jsonSizeKvs, ih, List.map_cons, List.sum_cons]

mutual

/-- Helper: canonicalization preserves the size measure. -/
theorem canon_size : ∀ j : Json, parsing.jsonSize (canon j) = parsing.jsonSize j
  | .val _ => rfl
  | .obj kvs => by
      show 1 + parsing.jsonSizeKvs (List.insertionSort kvLe (canonKvs kvs))
        = 1 + parsing.jsonSizeKvs kvs
      congr 1
      rw [jsonSizeKvs_eq_sum, jsonSizeKvs_eq_sum]
      rw [((List.perm_insertionSort kvLe (canonKvs kvs)).map
        (fun kv => 1 + parsing.jsonSize kv.2)).sum_eq]
      exact canon_size_sum kvs
  | .arr l => by
      show 1 + parsing.jsonSizeList (canonList l) = 1 + parsing.jsonSizeList l
      congr 1
      exact canon_size_list l

theorem canon_size_sum : ∀ kvs : List (String × Json),
    ((canonKvs kvs).map (fun kv => 1 + parsing.jsonSize kv.2)).sum
      = (kvs.map (fun kv => 1 + parsing.jsonSize kv.2)).sum
  | [] => rfl
  | kv :: rest => by
      rw [canonKvs]
      simp only [List.map_cons, List.sum_cons]
      rw [canon_size kv.2, canon_size_sum rest]

theorem canon_size_list : ∀ l : List Json,
    parsing.jsonSizeList (canonList l) = parsing.jsonSizeList l
  | [] => rfl
  | v :: rest => by
      rw [canonList]
      show 1 + parsing.jsonSize (canon v) + parsing.jsonSizeList (canonList rest)
        = 1 + parsing.jsonSize v + parsing.jsonSizeList rest
      rw [canon_size v, canon_size_list rest]

end

mutual

/-- Helper: the canonical form is Python-equal to the original
(well-formed) value, for any sufficient fuel. -/
theorem canon_pyJsonEqF : ∀ (fuel : Nat) (j : Json), wfJson j = true →
    parsing.jsonSize j ≤ fuel → pyJsonEqF fuel (canon j) j = true
  | 0, j, _, hsz => absurd hsz (by
      have := jsonSize_pos j
      omega)
  | _ + 1, .val v, _, _ => by
      show (v == v) = true
      simp
  | fuel + 1, .obj kvs, h, hsz => by
      obtain ⟨hnd, hk⟩ := Bool.and_eq_true_iff.mp h
      show (decide ((List.insertionSort kvLe (canonKvs kvs)).length = kvs.length)
          && (List.insertionSort kvLe (canonKvs kvs)).all (fun kv =>
            match kvs.lookup kv.1 with
            | some w => pyJsonEqF fuel kv.2 w
            | none => false)) = true
      rw [Bool.and_eq_true_iff]
      constructor
      · simp only [decide_eq_true_eq]
        rw [(List.perm_insertionSort kvLe (canonKvs kvs)).length_eq,
          canonKvs_eq_map]
        simp
      · rw [List.all_eq_true]
        intro kv hkv
        have hkv' := (List.perm_insertionSort kvLe (canonKvs kvs)).mem_iff.mp hkv
        rw [canonKvs_eq_map] at hkv'
        obtain ⟨kv0, hkv0, rfl⟩ := List.mem_map.mp hkv'
        have hlook : kvs.lookup kv0.1 = some kv0.2 :=
          lookup_of_mem_nodup kvs kv0.1 kv0.2 (of_decide_eq_true hnd)
            (by rw [Prod.mk.eta]; exact hkv0)
        show (match kvs.lookup kv0.1 with
          | some w => pyJsonEqF fuel (canon kv0.2) w
          | none => false) = true
        rw [hlook]
        exact canon_pyJsonEqF_kvs fuel kvs hk (by
          have he : parsing.jsonSize (.obj kvs)
              = 1 + parsing.jsonSizeKvs kvs := rfl
          omega) kv0 hkv0
  | fuel + 1, .arr l, h, hsz => by
      show (decide ((canonList l).length = l.length)
          && ((canonList l).zip l).all (fun p => pyJsonEqF fuel p.1 p.2)) = true
      rw [Bool.and_eq_true_iff]
      constructor
      · rw [canonList_eq_map]
        simp
      · exact canon_pyJsonEqF_zip fuel l h (by
          have he : parsing.jsonSize (.arr l)
              = 1 + parsing.jsonSizeList l := rfl
          omega)

theorem canon_pyJsonEqF_kvs : ∀ (fuel : Nat) (kvs : List (String × Json)),
    wfKvs kvs = true → parsing.jsonSizeKvs kvs ≤ fuel →
    ∀ kv ∈ kvs, pyJsonEqF fuel (canon kv.2) kv.2 = true
  | _, [], _, _, kv, hm => absurd hm (List.not_mem_nil kv)
  | fuel, kv0 :: rest, h, hsz, kv, hm => by
      obtain ⟨h1, h2⟩ := Bool.and_eq_true_iff.mp h
      have he : parsing.jsonSizeKvs (kv0 :: rest)
          = 1 + parsing.jsonSize kv0.2 + parsing.jsonSizeKvs rest := rfl
      rcases List.mem_cons.mp hm with rfl | hm'
      · exact canon_pyJsonEqF fuel kv.2 h1 (by omega)
      · exact canon_pyJsonEqF_kvs fuel rest h2 (by omega) kv hm'

theorem canon_pyJsonEqF_zip : ∀ (fuel : Nat) (l : List Json),
    wfList l = true → parsing.jsonSizeList l ≤ fuel →
    ((canonList l).zip l).all (fun p => pyJsonEqF fuel p.1 p.2) = true
  | _, [], _, _ => rfl
  | fuel, v :: rest, h, hsz => by
      obtain ⟨h1, h2⟩ := Bool.and_eq_true_iff.mp h
      have he : parsing.jsonSizeList (v :: rest)
          = 1 + parsing.jsonSize v + parsing.jsonSizeList rest := rfl
      rw [canonList]
      show (pyJsonEqF fuel (canon v) v
          && ((canonList rest).zip rest).all (fun p => pyJsonEqF fuel p.1 p.2)) = true
      rw [Bool.and_eq_true_iff]
      exact ⟨canon_pyJsonEqF fuel v h1 (by omega),
        canon_pyJsonEqF_zip fuel rest h2 (by omega)⟩

end

/-- Helper: the canonical form of a well-formed value is Python-equal to
it. -/
theorem canon_pyJsonEq (j : Json) (h : wfJson j = true) :
    pyJsonEq (canon j) j = true := by
  rw [pyJsonEq, canon_size j]
  exact canon_pyJsonEqF (parsing.jsonSize j) j h (le_refl _)

/-- Helper: `all` over a mapped list. -/
theorem all_map_comp {α β : Type} (f : α → β) (l : List α) (p : β → Bool) :
    (l.map f).all p = l.all (fun a => p (f a)) := by
  induction l with
  | nil => rfl
  | cons a l ih => simp [ih]

/-- Helper: `any` over a mapped list. -/
theorem any_map_comp {α β : Type} (f : α → β) (l : List α) (p : β → Bool) :
    (l.map f).any p = l.any (fun a => p (f a)) := by
  induction l with
  | nil => rfl
  | cons a l ih => simp [ih]

/-- Helper: when every item of the generator evaluates without an
exception, `Operator.combine` returns `all` / `any` of the item truth
values. -/
theorem jsondb.combine_of_all_ok (op : jsondb.Operator)
    (l : List (Except PyErr Bool)) (h : ∀ x ∈ l, ∃ b, x = .ok b) :
    op.combine l = .ok (match op with
      | .AND => l.all jsondb.isOkTrue
      | .OR => l.any jsondb.isOkTrue) := by
  induction l with
  | nil => cases op <;> rfl
  | cons x xs ih =>
      obtain ⟨b, rfl⟩ := h x (List.mem_cons_self x xs)
      have ih' := ih (fun y hy => h y (List.mem_cons_of_mem _ hy))
      cases op <;> cases b <;>
        simp [jsondb.Operator.combine, jsondb.isOkTrue, ih']

/-- Helper: a successful lookup means the name is among the keys. -/
theorem lookup_isSome_mem_keys {β : Type} (l : List (String × β)) (n : String)
    (h : (l.lookup n).isSome = true) : n ∈ l.map Prod.fst := by
  induction l with
  | nil => simp [List.lookup] at h
  | cons p l ih =>
      rcases p with ⟨k, v⟩
      by_cases hk : k = n
      · subst hk
        simp
      · have hne : (n == k) = false := beq_eq_false_iff_ne.mpr (Ne.symm hk)
        rw [List.lookup_cons, hne] at h
        simpa using Or.inr (ih h)

/-- Helper: under the declared-names precondition the `field_kwargs`
construction inside `search` succeeds and produces the looked-up pairs in
criteria order. -/
theorem jsondb.mapM_lookup_eq (fields : List (String × jsondb.Field))
    (criteria : List (String × jsondb.Args))
    (h : ∀ n ∈ criteria.map Prod.fst, (fields.lookup n).isSome = true) :
    (criteria.mapM (fun na =>
        match fields.lookup na.1 with
        | some f => Except.ok (f, na.2)
        | none => Except.error (PyErr.keyError na.1))
      : Except PyErr (List (jsondb.Field × jsondb.Args)))
      = .ok (jsondb.lookupPairs fields criteria) := by
  induction criteria with
  | nil => rfl
  | cons na rest ih =>
      obtain ⟨f, hf⟩ := Option.isSome_iff_exists.mp (h na.1 (by simp))
      have ih' := ih (fun n hn => h n (by simp [List.mem_map] at hn ⊢; right; exact hn))
      rw [List.mapM_cons, hf, ih']
      simp [jsondb.lookupPairs, List.filterMap_cons, hf]
      rfl

/-- Helper: under the no-exception precondition the record loop of
`search` is a stable filter by the `passes` predicate. -/
theorem jsondb.searchFilter_eq_filter (op : jsondb.Operator)
    (pairs : List (jsondb.Field × jsondb.Args)) (data : List Json)
    (h : ∀ r ∈ data, ∀ fa ∈ pairs, ∃ b, fa.1.compare r fa.2 = .ok b) :
    jsondb.searchFilter op pairs data
      = .ok (data.filter (jsondb.passes op pairs)) := by
  induction data with
  | nil => rfl
  | cons r rs ih =>
      have hcomb := jsondb.combine_of_all_ok op
        (pairs.map (fun fa => fa.1.compare r fa.2))
        (by
          intro x hx
          obtain ⟨fa, hfa, rfl⟩ := List.mem_map.mp hx
          exact h r (by simp) fa hfa)
      have ih' := ih (fun r' hr' fa hfa => h r' (by simp [hr']) fa hfa)
      rw [jsondb.searchFilter, hcomb, ih']
      simp only [Except.bind, List.filter_cons, jsondb.passes,
        all_map_comp, any_map_comp]
      cases op <;> rfl

/-- C2: for a criteria mapping naming only declared fields and covering
all non-optional fields, when every named pair's `compare` evaluates
without an exception on every record, `search` returns exactly the records
for which the operator-combination of the `compare` results over the named
`(field, args)` pairs is true (`AND` = all pairs pass, `OR` = at least one
passes); the result is literally a `filter` of the data list, hence keeps
the input's relative order (a sublist of the data); and an empty criteria
mapping under `AND` returns every record. -/
theorem C2_search_is_stable_filter (db : jsondb.Database)
    (criteria : List (String × jsondb.Args)) (operator : jsondb.Operator)
    (hdecl : ∀ n ∈ criteria.map Prod.fst, (db.fields.lookup n).isSome = true)
    (hreq : ∀ nf ∈ db.fields, nf.2.optional = false → nf.1 ∈ criteria.map Prod.fst)
    (hok : ∀ r ∈ db.data, ∀ fa ∈ jsondb.lookupPairs db.fields criteria,
      ∃ b, fa.1.compare r fa.2 = .ok b) :
    db.search criteria operator
      = .ok (db.data.filter
          (jsondb.passes operator (jsondb.lookupPairs db.fields criteria))) ∧
    (db.data.filter
        (jsondb.passes operator (jsondb.lookupPairs db.fields criteria))).Sublist
      db.data ∧
    (criteria = [] → operator = .AND →
      db.search criteria operator = .ok db.data) := by
  have hfind : db.fields.find? (fun nf =>
      !nf.2.optional && !((criteria.map Prod.fst).contains nf.1)) = none := by
    apply List.find?_eq_none.mpr
    intro nf hnf
    by_cases hopt : nf.2.optional
    · simp [hopt]
    · have hmem := hreq nf hnf (by simpa using hopt)
      simp only [Bool.not_eq_true] at hopt
      simp [hopt, List.contains, List.elem_iff, hmem]
  have hany : (criteria.map Prod.fst).any
      (fun n => !((db.fields.map Prod.fst).contains n)) = false := by
    apply List.any_eq_false.mpr
    intro n hn
    have := lookup_isSome_mem_keys db.fields n (hdecl n hn)
    simp [List.contains, List.elem_iff, this]
  have hmain : db.search criteria operator
      = .ok (db.data.filter
          (jsondb.passes operator (jsondb.lookupPairs db.fields criteria))) := by
    rw [jsondb.Database.search, hfind,
      if_neg (by rw [hany]; exact Bool.false_ne_true),
      jsondb.mapM_lookup_eq db.fields criteria hdecl]
    show Except.bind _ _ = _
    rw [Except.bind]
    exact jsondb.searchFilter_eq_filter operator _ db.data hok
  refine ⟨hmain, List.filter_sublist _, ?_⟩
  rintro rfl rfl
  rw [hmain]
  congr 1
  apply List.filter_eq_self.mpr
  intro r hr
  rfl

/-- Helper: assigning a fresh key appends the binding. -/
theorem dictSet_missing (kvs : List (String × Json)) (k : String) (v : Json)
    (h : ¬ k ∈ kvs.map Prod.fst) :
    parsing.dictSet kvs k v = kvs ++ [(k, v)] := by
  induction kvs with
  | nil => rfl
  | cons p rest ih =>
      rcases p with ⟨k', v'⟩
      simp only [List.map_cons, List.mem_cons, not_or] at h
      rw [parsing.dictSet, if_neg (fun hh => h.1 (by rw [hh])), ih h.2]
      rfl

/-- Helper: looking up a key other than the appended one is unchanged. -/
theorem lookup_append_single_ne (kvs : List (String × Json)) (k k' : String)
    (v : Json) (h : k' ≠ k) :
    (kvs ++ [(k, v)]).lookup k' = kvs.lookup k' := by
  induction kvs with
  | nil =>
      simp [List.lookup, beq_eq_false_iff_ne.mpr h]
  | cons p rest ih =>
      rcases p with ⟨k0, v0⟩
      by_cases h0 : k' = k0
      · subst h0
        simp [List.lookup_cons]
      · rw [List.cons_append, List.lookup_cons, List.lookup_cons,
          beq_eq_false_iff_ne.mpr h0]
        exact ih

/-- Helper: looking up the appended key when it was absent. -/
theorem lookup_append_single_eq (kvs : List (String × Json)) (k : String)
    (v : Json) (h : ¬ k ∈ kvs.map Prod.fst) :
    (kvs ++ [(k, v)]).lookup k = some v := by
  induction kvs with
  | nil => simp [List.lookup]
  | cons p rest ih =>
      rcases p with ⟨k0, v0⟩
      simp only [List.map_cons, List.mem_cons, not_or] at h
      rw [List.cons_append, List.lookup_cons, beq_eq_false_iff_ne.mpr h.1]
      exact ih h.2

/-- C10: `get_display` — when the record already contains the reserved key
`__CACHED_DISPLAY_STRING__`, whether written by a prior render or present
in the loaded data itself, the stored value is returned, the record is
unchanged and `t.format` is never invoked (invocation count 0); otherwise
`t.format` is invoked exactly once, its result is stored under the
reserved key (appended at the end), that stored value is returned, and
the binding of every other key is unchanged. -/
theorem C10_get_display_caches (format : List (String × Json) → String)
    (r : List (String × Json)) :
    (parsing.CACHE_KEY ∈ r.map Prod.fst →
      parsing.get_display format r = (r.lookup parsing.CACHE_KEY, r, 0)) ∧
    (¬ parsing.CACHE_KEY ∈ r.map Prod.fst →
      parsing.get_display format r
        = (some (.val (.s (format r))),
           r ++ [(parsing.CACHE_KEY, .val (.s (format r)))], 1) ∧
      ∀ k, k ≠ parsing.CACHE_KEY →
        (r ++ [(parsing.CACHE_KEY, Json.val (Scalar.s (format r)))]).lookup k
          = r.lookup k) := by
  constructor
  · intro h
    have hc : (r.map Prod.fst).contains parsing.CACHE_KEY = true := by
      simpa [List.contains, List.elem_iff] using h
    unfold parsing.get_display
    rw [hc]
    rfl
  · intro h
    have hc : (r.map Prod.fst).contains parsing.CACHE_KEY = false := by
      simpa [List.contains, List.elem_iff] using h
    refine ⟨?_, fun k hk => lookup_append_single_ne r parsing.CACHE_KEY k _ hk⟩
    have hds := dictSet_missing r parsing.CACHE_KEY (.val (.s (format r))) h
    have hlk := lookup_append_single_eq r parsing.CACHE_KEY (.val (.s (format r))) h
    unfold parsing.get_display
    rw [hc]
    show ((parsing.dictSet r parsing.CACHE_KEY
            (.val (.s (format r)))).lookup parsing.CACHE_KEY,
          parsing.dictSet r parsing.CACHE_KEY (.val (.s (format r))), 1) = _
    rw [hds, hlk]

/-- Witness for C10 on concrete records: a record already carrying the
reserved key (here with a non-string data value) is returned as stored
with zero `format` invocations; a record without it gets the formatted
string appended with exactly one invocation, the other binding
untouched. -/
theorem C10_get_display_caches_witness :
    parsing.get_display (fun _ => "X")
        [(parsing.CACHE_KEY, .val (.i 5))]
      = (some (.val (.i 5)), [(parsing.CACHE_KEY, .val (.i 5))], 0) ∧
    parsing.get_display (fun _ => "X") [("a", .val (.i 1))]
      = (some (.val (.s "X")),
         [("a", .val (.i 1)), (parsing.CACHE_KEY, .val (.s "X"))], 1) := by
  constructor
  · have h := (C10_get_display_caches (fun _ => "X")
      [(parsing.CACHE_KEY, .val (.i 5))]).1 (by simp)
    rw [h]
    rfl
  · have h := ((C10_get_display_caches (fun _ => "X")
      [("a", .val (.i 1))]).2 (by simp [parsing.CACHE_KEY])).1
    rw [h]
    rfl

/-- C6 (counterexample): claimed — acceptance requires the engine minor to
be numerically greater than or equal to the document minor (the claim
names the pair engine minor 10 against document minor 9).  With engine
version `1.10.0` and document version `1.9` the majors agree and 10 ≥ 9
numerically, but the split components are compared as Python strings and
`"10" < "9"` lexicographically, so the gate rejects with the
incompatible-version error. -/
theorem C6_version_check_counterexample :
    parsing.checkVersion "1.10.0" "1.9"
      = .error (.valueError
          "SAJE version 1.10.0 cannot load format from version 1.9") ∧
    parsing.pySplitDot "1.10.0" = ["1", "10", "0"] ∧
    parsing.pySplitDot "1.9" = ["1", "9"] ∧
    (9 : Nat) ≤ 10 := by
  refine ⟨rfl, rfl, rfl, by decide⟩

/-- C6 (amended): for version strings with at least major and minor
components, the gate accepts exactly when the majors are equal as strings
and the engine minor is not lexicographically smaller, as a string, than
the document minor; otherwise it rejects with the incompatible-version
`ValueError` — and a gate failure is exactly what `parse_file` reports
when the document's `version` value is that string. -/
theorem C6_version_gate_lexicographic (progVersion jsonVersion : String)
    (pMaj pMin dMaj dMin : String) (pRest dRest : List String)
    (hp : parsing.pySplitDot progVersion = pMaj :: pMin :: pRest)
    (hd : parsing.pySplitDot jsonVersion = dMaj :: dMin :: dRest) :
    (parsing.checkVersion progVersion jsonVersion = .ok () ↔
      (pMaj = dMaj ∧ pyStrLt pMin dMin = false)) ∧
    ((pMaj ≠ dMaj ∨ pyStrLt pMin dMin = true) →
      parsing.checkVersion progVersion jsonVersion
        = .error (.valueError ("SAJE version " ++ progVersion ++
            " cannot load format from version " ++ jsonVersion))) ∧
    (∀ (json_file : List (String × Json)) (filename : String) (e : PyErr),
      json_file.lookup "version" = some (.val (.s jsonVersion)) →
      parsing.checkVersion progVersion jsonVersion = .error e →
      parsing.parse_file progVersion json_file filename = .error e) := by
  have hcv : parsing.checkVersion progVersion jsonVersion
      = if pMaj ≠ dMaj then
          .error (.valueError ("SAJE version " ++ progVersion ++
            " cannot load format from version " ++ jsonVersion))
        else if pyStrLt pMin dMin then
          .error (.valueError ("SAJE version " ++ progVersion ++
            " cannot load format from version " ++ jsonVersion))
        else .ok () := by
    simp only [parsing.checkVersion, hp, hd]
    rfl
  refine ⟨?_, ?_, ?_⟩
  · rw [hcv]
    by_cases h1 : pMaj = dMaj
    · by_cases h2 : pyStrLt pMin dMin
      · simp [h1, h2]
      · simp [h1, h2]
    · simp [h1]
  · intro h
    rw [hcv]
    rcases h with h | h
    · rw [if_pos h]
    · by_cases h1 : pMaj ≠ dMaj
      · rw [if_pos h1]
      · rw [if_neg h1, if_pos (by rw [h])]
  · intro json_file filename e hlook hcvE
    rw [parsing.parse_file, hlook]
    show (do
        parsing.checkVersion progVersion jsonVersion
        let fieldsJ ← parsing.pyDictGet json_file "fields"
        let elems ← parsing.pyIterate fieldsJ
        let (field_dict, field_geometry) ←
          parsing.parse_nested_fields (parsing.jsonSize fieldsJ + 1) [] [] elems
        let fields := field_dict.map (fun ng => (ng.1, ng.2.field_spec))
        let modes ← parsing.modesAggregation field_dict
        let ds ← parsing.from_json (json_file.lookup "display_string")
        let dataJ ← parsing.pyDictGet json_file "data"
        let db ← parsing.db_from_json fields dataJ
        .ok ⟨(json_file.lookup "name").getD (.val (.s filename)), ds,
          field_geometry, field_dict, db, modes⟩
      : Except PyErr parsing.ParsedFile) = .error e
    rw [show (parsing.checkVersion progVersion jsonVersion) = .error e from hcvE]
    rfl

/-- Witness for the amended C6: engine `0.2.0` accepts document version
`0.2` (equal majors, equal minors). -/
theorem C6_version_gate_lexicographic_witness :
    parsing.checkVersion "0.2.0" "0.2" = .ok () :=
  (C6_version_gate_lexicographic "0.2.0" "0.2" "0" "2" "0" "2" ["0"] []
    rfl rfl).1.mpr ⟨rfl, rfl⟩

/-- C8 (counterexample): claimed — the priority order starts with the
Table signature `{key, table}`, so an object whose key set satisfies both
the Table signature and a later one decodes as Table.  The registration
order actually starts with `IfKeyDS`: on the key set
`{key, table, if_key, display_string}` the dispatch selects IfKeyPresent,
not Table. -/
theorem C8_dispatch_counterexample :
    parsing.dispatch {"key", "table", "if_key", "display_string"}
      = some .ifKey ∧
    parsing.DSTag.ifKey ≠ parsing.DSTag.table := by
  refine ⟨by decide, by decide⟩

/-- C8 (amended): the object decoder selects the FIRST registered class
whose keyword signature is contained in the object's key set, in
registration (class definition) order: `{if_key, display_string}` →
IfKeyPresent, then `{if_json_type, json_value, json_array, json_object}`
→ TypeDispatch, then `{key, table}` → Table, then
`{forall, display_string}` → ForEach; an object satisfying both the Table
signature and an earlier one therefore gets the earlier variant, and an
object matching no signature fails with the no-match `ValueError`. -/
theorem C8_dispatch_priority :
    (∀ json_kw : Finset String,
      parsing.dispatch json_kw =
        if ({"if_key", "display_string"} : Finset String) ⊆ json_kw then
          some .ifKey
        else if ({"if_json_type", "json_value", "json_array", "json_object"} :
            Finset String) ⊆ json_kw then some .jsonType
        else if ({"key", "table"} : Finset String) ⊆ json_kw then some .table
        else if ({"forall", "display_string"} : Finset String) ⊆ json_kw then
          some .forall_
        else none) ∧
    (∀ (fuel : Nat) (kvs : List (String × Json)),
      parsing.dispatch (parsing.keysOf kvs) = none →
      parsing.fromJsonJ (fuel + 1) (.obj kvs)
        = .error (.valueError "No display_string object matches the keywords")) := by
  constructor
  · intro kw
    by_cases h1 : ({"if_key", "display_string"} : Finset String) ⊆ kw <;>
    by_cases h2 : ({"if_json_type", "json_value", "json_array", "json_object"} :
        Finset String) ⊆ kw <;>
    by_cases h3 : ({"key", "table"} : Finset String) ⊆ kw <;>
    by_cases h4 : ({"forall", "display_string"} : Finset String) ⊆ kw <;>
      simp [parsing.dispatch, parsing.CLASSES, List.find?,
        Finset.inter_eq_left, h1, h2, h3, h4]
  · intro fuel kvs h
    simp [parsing.fromJsonJ, h]

/-- Witness for the amended C8: the key set `{key, table}` (satisfying
only the Table signature) dispatches to Table, and an object matching no
signature fails with the no-match error. -/
theorem C8_dispatch_priority_witness :
    parsing.dispatch (parsing.keysOf [("key", .val (.s "t")),
      ("table", .obj [("", .val (.s "d"))])]) = some .table ∧
    parsing.fromJsonJ 1 (.obj [("x", .val (.i 1))])
      = .error (.valueError "No display_string object matches the keywords") := by
  constructor
  · rw [(C8_dispatch_priority).1 (parsing.keysOf [("key", .val (.s "t")),
      ("table", .obj [("", .val (.s "d"))])])]
    decide
  · exact (C8_dispatch_priority).2 0 [("x", .val (.i 1))] (by decide)

/-- C7: claimed — for a well-formed document `parse_file` returns a
`ParsedFile` whose `modes` equals the union of the per-field mode tag
sets rather than failing.  On the concrete well-formed document `docC7`
(version `0.1` compatible with engine `0.1.0`, one valid Option field
carrying mode tag `m1`, empty data) the nested field parsing succeeds and
the union the spec describes is `{"m1"}` — but `parse_file` instead
raises `TypeError` at the modes aggregation line, as it does on every
document that reaches it (`set.union` is applied to a generator; see
`modesAggregation`). -/
theorem C7_parse_file_modes_typeerror :
    parsing.parse_file "0.1.0" parsing.docC7 "file.json"
      = .error (.typeError
          "descriptor union requires a set object but received a generator") ∧
    parsing.parse_nested_fields
        (parsing.jsonSize (.arr [.obj
          [("type", .val (.s "Option")),
           ("name", .val (.s "color")),
           ("key", .val (.s "color")),
           ("values", .arr [.val (.s "red")]),
           ("modes", .val (.s "m1"))]]) + 1) [] []
        [.obj [("type", .val (.s "Option")),
           ("name", .val (.s "color")),
           ("key", .val (.s "color")),
           ("values", .arr [.val (.s "red")]),
           ("modes", .val (.s "m1"))]]
      = .ok ([("color", parsing.gdC7)], [.name "color"]) ∧
    parsing.specModesUnion [("color", parsing.gdC7)] = {"m1"} := by
  refine ⟨rfl, rfl, by decide⟩

/-- Witness for C2 on the concrete database: under `AND` only the record
passing both criteria is returned, under `OR` all records passing at least
one are returned, in input order. -/
theorem C2_search_is_stable_filter_witness :
    dbEx.search criteriaEx .AND = .ok [recRed9] ∧
    dbEx.search criteriaEx .OR = .ok [recRed3, recBlue7, recRed9] := by
  constructor
  · have h := (C2_search_is_stable_filter dbEx criteriaEx .AND
      (by decide) (by decide) (by decide)).1
    rw [h]
    rfl
  · have h := (C2_search_is_stable_filter dbEx criteriaEx .OR
      (by decide) (by decide) (by decide)).1
    rw [h]
    rfl

/-- Helper: `entryLe` is total. -/
theorem entryLe_total (a b : List Key × Scalar) :
    jsonplus.entryLe a b ∨ jsonplus.entryLe b a := by
  cases h : jsonplus.pathLtB b.1 a.1
  · exact Or.inl h
  · exact Or.inr (pathLtB_asymm b.1 a.1 h)

/-- Helper: `entryLe` is transitive. -/
theorem entryLe_trans (a b c : List Key × Scalar) :
    jsonplus.entryLe a b → jsonplus.entryLe b c → jsonplus.entryLe a c := by
  intro hab hbc
  have hab' : jsonplus.pathLtB b.1 a.1 = false := hab
  have hbc' : jsonplus.pathLtB c.1 b.1 = false := hbc
  show jsonplus.pathLtB c.1 a.1 = false
  cases h : jsonplus.pathLtB c.1 a.1
  · rfl
  · cases hx : jsonplus.pathLtB b.1 c.1
    · have heq := pathLtB_conn b.1 c.1 hx hbc'
      rw [← heq] at h
      rw [h] at hab'
      exact hab'
    · have := pathLtB_trans b.1 c.1 a.1 hx h
      rw [this] at hab'
      exact hab'

/-- Helper: a `entryLe`-sorted list with duplicate-free paths is strictly
sorted. -/
theorem pairwise_entryLt_of_le_nodup : ∀ l : List (List Key × Scalar),
    l.Pairwise jsonplus.entryLe → (l.map Prod.fst).Nodup →
    l.Pairwise jsonplus.entryLt := by
  intro l
  induction l with
  | nil => intro _ _; exact List.Pairwise.nil
  | cons a t ih =>
      intro hp hnd
      rcases List.pairwise_cons.mp hp with ⟨ha, ht⟩
      rw [List.map_cons] at hnd
      rcases List.nodup_cons.mp hnd with ⟨hna, hndt⟩
      refine List.pairwise_cons.mpr ⟨?_, ih ht hndt⟩
      intro b hb
      have hab : jsonplus.pathLtB b.1 a.1 = false := ha b hb
      show jsonplus.pathLtB a.1 b.1 = true
      cases h : jsonplus.pathLtB a.1 b.1
      · have heq := pathLtB_conn a.1 b.1 h hab
        exact absurd (heq ▸ List.mem_map.mpr ⟨b, hb, rfl⟩) hna
      · rfl

/-- Helper: a strictly path-sorted entry list has duplicate-free paths. -/
theorem nodup_fst_of_pairwise_entryLt (l : List (List Key × Scalar))
    (h : l.Pairwise jsonplus.entryLt) : (l.map Prod.fst).Nodup :=
  List.Pairwise.map Prod.fst (fun a b hab heq => by
    have hab' : jsonplus.pathLtB a.1 b.1 = true := hab
    rw [heq] at hab'
    rw [pathLtB_irrefl b.1] at hab'
    exact Bool.false_ne_true hab') h

/-- Helper: sorting the flattening of a well-formed value by path gives
exactly the flattening of its canonical (key-sorted) form. -/
theorem sort_flatten_eq (j : Json) (hwf : wfJson j = true) :
    List.insertionSort jsonplus.entryLe (jsonplus.flatten j)
      = jsonplus.flatten (canon j) := by
  haveI : IsTotal (List Key × Scalar) jsonplus.entryLe := ⟨entryLe_total⟩
  haveI : IsTrans (List Key × Scalar) jsonplus.entryLe := ⟨entryLe_trans⟩
  haveI : IsAntisymm (List Key × Scalar) jsonplus.entryLt := ⟨fun a b hab hba => by
    have h1 : jsonplus.pathLtB a.1 b.1 = true := hab
    have h2 : jsonplus.pathLtB b.1 a.1 = true := hba
    rw [pathLtB_asymm a.1 b.1 h1] at h2
    exact absurd h2 Bool.false_ne_true⟩
  have hsortedR : (jsonplus.flatten (canon j)).Pairwise jsonplus.entryLt :=
    canonical_flatten_sorted (canon j) (canon_canonical j hwf)
  have hperm : (List.insertionSort jsonplus.entryLe (jsonplus.flatten j)).Perm
      (jsonplus.flatten (canon j)) :=
    (List.perm_insertionSort _ _).trans (canon_flatten_perm j).symm
  have hndL : ((List.insertionSort jsonplus.entryLe
      (jsonplus.flatten j)).map Prod.fst).Nodup :=
    (hperm.map Prod.fst).nodup_iff.mpr (nodup_fst_of_pairwise_entryLt _ hsortedR)
  exact List.eq_of_perm_of_sorted hperm
    (pairwise_entryLt_of_le_nodup _ (List.sorted_insertionSort _ _) hndL)
    hsortedR

/-- Helper: adding an entry under a fresh key appends a new group. -/
theorem addToGroups_new : ∀ (acc : List (Key × List (List Key × Scalar)))
    (k : Key) (e : List Key × Scalar), k ∉ acc.map Prod.fst →
    jsonplus.addToGroups acc k e = acc ++ [(k, [e])]
  | [], _, _, _ => rfl
  | (k', es') :: acc', k, e, hna => by
      rw [List.map_cons] at hna
      have hne : ¬ k' = k := by
        intro hh
        exact hna (by rw [← hh]; exact List.mem_cons_self _ _)
      show (if k' = k then (k', es' ++ [e]) :: acc'
        else (k', es') :: jsonplus.addToGroups acc' k e)
        = ((k', es') :: acc') ++ [(k, [e])]
      rw [if_neg hne,
        addToGroups_new acc' k e (fun hm => hna (List.mem_cons_of_mem _ hm))]
      rfl

/-- Helper: adding an entry under the key of the last group (absent from
the earlier groups) appends to that group. -/
theorem addToGroups_last : ∀ (acc : List (Key × List (List Key × Scalar)))
    (k : Key) (pre : List (List Key × Scalar)) (e : List Key × Scalar),
    k ∉ acc.map Prod.fst →
    jsonplus.addToGroups (acc ++ [(k, pre)]) k e = acc ++ [(k, pre ++ [e])]
  | [], k, pre, e, _ => by
      show (if k = k then (k, pre ++ [e]) :: ([] : List _)
        else (k, pre) :: jsonplus.addToGroups [] k e) = [(k, pre ++ [e])]
      rw [if_pos rfl]
  | (k', es') :: acc', k, pre, e, hna => by
      rw [List.map_cons] at hna
      have hne : ¬ k' = k := by
        intro hh
        exact hna (by rw [← hh]; exact List.mem_cons_self _ _)
      show (if k' = k then (k', es' ++ [e]) :: (acc' ++ [(k, pre)])
        else (k', es') :: jsonplus.addToGroups (acc' ++ [(k, pre)]) k e)
        = ((k', es') :: acc') ++ [(k, pre ++ [e])]
      rw [if_neg hne,
        addToGroups_last acc' k pre e (fun hm => hna (List.mem_cons_of_mem _ hm))]
      rfl

/-- Helper: one step of the grouping loop. -/
theorem groupByHeadGo_cons (acc : List (Key × List (List Key × Scalar)))
    (k : Key) (p : List Key) (v : Scalar) (rest : List (List Key × Scalar)) :
    jsonplus.groupByHeadGo acc ((k :: p, v) :: rest)
      = jsonplus.groupByHeadGo (jsonplus.addToGroups acc k (p, v)) rest := rfl

/-- Helper: the grouping loop consumes a block of entries that share the
head segment of the open last group by appending their tails to it. -/
theorem groupByHeadGo_block : ∀ (es pre : List (List Key × Scalar)) (k : Key)
    (acc : List (Key × List (List Key × Scalar)))
    (rest : List (List Key × Scalar)), k ∉ acc.map Prod.fst →
    jsonplus.groupByHeadGo (acc ++ [(k, pre)])
      (es.map (fun e => (k :: e.1, e.2)) ++ rest)
      = jsonplus.groupByHeadGo (acc ++ [(k, pre ++ es)]) rest
  | [], pre, k, acc, rest, _ => by
      rw [List.map_nil, List.nil_append, List.append_nil]
  | e :: es', pre, k, acc, rest, hna => by
      rw [List.map_cons, List.cons_append, groupByHeadGo_cons,
        addToGroups_last acc k pre (e.1, e.2) hna, Prod.mk.eta,
        groupByHeadGo_block es' (pre ++ [e]) k acc rest hna,
        List.append_assoc, List.singleton_append]

/-- Helper: the grouping loop over the concatenated per-key blocks of an
object flattening yields exactly one group per key, in order, holding the
block's tails. -/
theorem groupByHeadGo_obj : ∀ (kvs : List (String × Json))
    (acc : List (Key × List (List Key × Scalar))),
    (∀ kv ∈ kvs, Key.str kv.1 ∉ acc.map Prod.fst) →
    (kvs.map Prod.fst).Nodup →
    (∀ kv ∈ kvs, neJson kv.2 = true) →
    jsonplus.groupByHeadGo acc
      (kvs.flatMap (fun kv => (jsonplus.flattenJson [] kv.2).map
        (fun e => (Key.str kv.1 :: e.1, e.2))))
      = .ok (acc ++ kvs.map
          (fun kv => (Key.str kv.1, jsonplus.flattenJson [] kv.2)))
  | [], acc, _, _, _ => by
      rw [List.flatMap_nil, List.map_nil, List.append_nil]
      rfl
  | kv :: rest, acc, hacc, hnd, hne => by
      rw [List.map_cons] at hnd
      rcases List.nodup_cons.mp hnd with ⟨hh1, hnd'⟩
      have hb : jsonplus.flattenJson [] kv.2 ≠ [] :=
        flattenJson_ne [] kv.2 (hne kv (List.mem_cons_self _ _))
      rcases List.exists_cons_of_ne_nil hb with ⟨e, es, hB⟩
      have hacc' : ∀ kv' ∈ rest, Key.str kv'.1 ∉
          ((acc ++ [(Key.str kv.1, jsonplus.flattenJson [] kv.2)]).map
            Prod.fst) := by
        intro kv' hkv' hmem
        rw [List.map_append] at hmem
        rcases List.mem_append.mp hmem with hm | hm
        · exact hacc kv' (List.mem_cons_of_mem _ hkv') hm
        · have hm' : Key.str kv'.1 = Key.str kv.1 := by simpa using hm
          have heq : kv'.1 = kv.1 := Key.str.inj hm'
          exact hh1 (heq ▸ List.mem_map.mpr ⟨kv', hkv', rfl⟩)
      have hne' : ∀ kv' ∈ rest, neJson kv'.2 = true :=
        fun kv' h' => hne kv' (List.mem_cons_of_mem _ h')
      rw [List.flatMap_cons, hB, List.map_cons, List.cons_append,
        groupByHeadGo_cons,
        addToGroups_new acc (Key.str kv.1) (e.1, e.2)
          (hacc kv (List.mem_cons_self _ _)),
        Prod.mk.eta,
        groupByHeadGo_block es [e] (Key.str kv.1) acc _
          (hacc kv (List.mem_cons_self _ _)),
        List.singleton_append, ← hB,
        groupByHeadGo_obj rest _ hacc' hnd' hne',
        List.append_assoc, List.singleton_append, List.map_cons]

/-- Helper: grouping the flattening of an object by head segment yields
one group per key, in insertion order, holding the key's value
flattening. -/
theorem groupByHead_flattenObj (kvs : List (String × Json))
    (hnd : (kvs.map Prod.fst).Nodup)
    (hne : ∀ kv ∈ kvs, neJson kv.2 = true) :
    jsonplus.groupByHead (jsonplus.flattenObj [] kvs)
      = .ok (kvs.map
          (fun kv => (Key.str kv.1, jsonplus.flattenJson [] kv.2))) := by
  have hfun : (fun kv : String × Json =>
      jsonplus.flattenJson ([] ++ [Key.str kv.1]) kv.2)
      = fun kv => (jsonplus.flattenJson [] kv.2).map
          (fun e => (Key.str kv.1 :: e.1, e.2)) := by
    funext kv
    rw [flattenJson_shift ([] ++ [Key.str kv.1]) kv.2]
    simp
  have hflat : jsonplus.flattenObj [] kvs
      = kvs.flatMap (fun kv => (jsonplus.flattenJson [] kv.2).map
          (fun e => (Key.str kv.1 :: e.1, e.2))) := by
    rw [flattenObj_eq_flatMap, hfun]
  rw [jsonplus.groupByHead, hflat,
    groupByHeadGo_obj kvs [] (by intro kv _ h; exact List.not_mem_nil _ h)
      hnd hne,
    List.nil_append]

/-- Helper: indexing the element after a known prefix. -/
theorem get_mid {α : Type} : ∀ (done : List α) (cur : α) (suf : List α)
    (h : done.length < (done ++ cur :: suf).length),
    (done ++ cur :: suf).get ⟨done.length, h⟩ = cur := by
  intro done
  induction done with
  | nil => intro cur suf h; rfl
  | cons d done' ih =>
      intro cur suf h
      exact ih cur suf (by rw [List.length_append, List.length_cons]; omega)

/-- Helper: updating the element after a known prefix. -/
theorem set_mid {α : Type} : ∀ (done : List α) (cur x : α) (suf : List α),
    (done ++ cur :: suf).set done.length x = done ++ x :: suf := by
  intro done
  induction done with
  | nil => intro cur x suf; rfl
  | cons d done' ih =>
      intro cur x suf
      show d :: (done' ++ cur :: suf).set done'.length x
        = d :: (done' ++ x :: suf)
      rw [ih]

/-- Helper: one step of the bucket-filling loop. -/
theorem fillArrayGo_cons (arr : List (List (List Key × Scalar))) (i : Nat)
    (p : List Key) (v : Scalar) (rest : List (List Key × Scalar)) :
    jsonplus.fillArrayGo arr ((Key.idx i :: p, v) :: rest)
      = if h : i < arr.length then
          jsonplus.fillArrayGo (arr.set i (arr.get ⟨i, h⟩ ++ [(p, v)])) rest
        else .error (.indexError "list index out of range") := rfl

/-- Helper: the filling loop consumes a block of entries that share one
head index by appending their tails to that bucket. -/
theorem fillArrayGo_block : ∀ (es : List (List Key × Scalar))
    (done : List (List (List Key × Scalar)))
    (cur : List (List Key × Scalar))
    (suf : List (List (List Key × Scalar)))
    (rest : List (List Key × Scalar)),
    jsonplus.fillArrayGo (done ++ cur :: suf)
      (es.map (fun e => (Key.idx done.length :: e.1, e.2)) ++ rest)
      = jsonplus.fillArrayGo (done ++ (cur ++ es) :: suf) rest
  | [], done, cur, suf, rest => by
      rw [List.map_nil, List.nil_append, List.append_nil]
  | e :: es', done, cur, suf, rest => by
      have hlt : done.length < (done ++ cur :: suf).length := by
        rw [List.length_append, List.length_cons]
        omega
      rw [List.map_cons, List.cons_append, fillArrayGo_cons, dif_pos hlt,
        get_mid done cur suf hlt, Prod.mk.eta,
        set_mid done cur (cur ++ [e]) suf,
        fillArrayGo_block es' done (cur ++ [e]) suf rest,
        List.append_assoc, List.singleton_append]

/-- Helper: filling the replicate-initialized buckets with an array
flattening places each element's flattening in its own bucket, in
order. -/
theorem fillArrayGo_flattenArr : ∀ (l : List Json) (i : Nat)
    (done : List (List (List Key × Scalar))), done.length = i →
    jsonplus.fillArrayGo (done ++ List.replicate l.length [])
      (jsonplus.flattenArr [] i l)
      = .ok (done ++ l.map (fun v => jsonplus.flattenJson [] v))
  | [], _, done, _ => by
      rw [List.length_nil, List.replicate_zero, List.append_nil, List.map_nil,
        List.append_nil]
      rfl
  | v :: rest, i, done, hlen => by
      subst hlen
      rw [jsonplus.flattenArr, List.length_cons, List.replicate_succ,
        flattenJson_shift ([] ++ [Key.idx done.length]) v]
      simp only [List.nil_append, List.singleton_append]
      rw [fillArrayGo_block (jsonplus.flattenJson [] v) done []
          (List.replicate rest.length []) (jsonplus.flattenArr []
            (done.length + 1) rest),
        List.nil_append,
        ← List.singleton_append, ← List.append_assoc,
        fillArrayGo_flattenArr rest (done.length + 1)
          (done ++ [jsonplus.flattenJson [] v])
          (by rw [List.length_append]; rfl),
        List.append_assoc, List.singleton_append, List.map_cons]

/-- Helper: `lastHeadIndex` skips past the first of two or more
entries. -/
theorem lastHeadIndex_cons_cons (x y : List Key × Scalar)
    (t : List (List Key × Scalar)) :
    jsonplus.lastHeadIndex (x :: y :: t) = jsonplus.lastHeadIndex (y :: t) :=
  rfl

/-- Helper: `lastHeadIndex` only looks at the final segment of entries. -/
theorem lastHeadIndex_append : ∀ (a b : List (List Key × Scalar)), b ≠ [] →
    jsonplus.lastHeadIndex (a ++ b) = jsonplus.lastHeadIndex b
  | [], _, _ => by rw [List.nil_append]
  | x :: a', b, hb => by
      rw [List.cons_append]
      cases hab : a' ++ b with
      | nil => exact absurd (List.append_eq_nil.mp hab).2 hb
      | cons y t =>
          rw [lastHeadIndex_cons_cons, ← hab, lastHeadIndex_append a' b hb]

/-- Helper: the last head index of a block sharing head index `m` is
`m`. -/
theorem lastHeadIndex_block : ∀ (m : Nat) (es : List (List Key × Scalar)),
    es ≠ [] →
    jsonplus.lastHeadIndex (es.map (fun e => (Key.idx m :: e.1, e.2))) = .ok m
  | _, [], h => absurd rfl h
  | _, [_], _ => rfl
  | m, e :: e' :: t, _ => by
      rw [List.map_cons]
      cases hmap : (e' :: t).map (fun e => (Key.idx m :: e.1, e.2)) with
      | nil => exact absurd hmap (by simp)
      | cons y u =>
          rw [lastHeadIndex_cons_cons, ← hmap,
            lastHeadIndex_block m (e' :: t) (by simp)]

/-- Helper: the last head index of an array flattening starting at index
`i` is `i` plus the length minus one. -/
theorem lastHeadIndex_flattenArr : ∀ (i : Nat) (l : List Json),
    (∀ v ∈ l, neJson v = true) → l ≠ [] →
    jsonplus.lastHeadIndex (jsonplus.flattenArr [] i l)
      = .ok (i + l.length - 1)
  | _, [], _, h => absurd rfl h
  | i, [v], hne, _ => by
      have hb : jsonplus.flattenJson [] v ≠ [] :=
        flattenJson_ne [] v (hne v (List.mem_cons_self _ _))
      rw [jsonplus.flattenArr, jsonplus.flattenArr, List.append_nil,
        flattenJson_shift ([] ++ [Key.idx i]) v]
      simp only [List.nil_append, List.singleton_append]
      rw [lastHeadIndex_block i (jsonplus.flattenJson [] v) hb]
      simp
  | i, v :: v' :: t, hne, _ => by
      rw [jsonplus.flattenArr]
      have hbm : jsonplus.flattenArr [] (i + 1) (v' :: t) ≠ [] := by
        rw [jsonplus.flattenArr]
        intro hh
        exact flattenJson_ne ([] ++ [Key.idx (i + 1)]) v'
          (hne v' (by simp)) (List.append_eq_nil.mp hh).1
      rw [lastHeadIndex_append _ _ hbm,
        lastHeadIndex_flattenArr (i + 1) (v' :: t)
          (fun w hw => hne w (List.mem_cons_of_mem _ hw)) (by simp)]
      congr 1
      simp only [List.length_cons]
      omega

/-- Helper: the fuel estimate is positive. -/
theorem flatFuel_pos : ∀ l, 1 ≤ jsonplus.flatFuel l
  | [] => le_refl 1
  | (p, v) :: rest => by
      rw [jsonplus.flatFuel]
      omega

/-- Helper: fuel of a concatenation. -/
theorem flatFuel_append : ∀ a b, jsonplus.flatFuel (a ++ b) + 1
    = jsonplus.flatFuel a + jsonplus.flatFuel b
  | [], b => by
      rw [List.nil_append, jsonplus.flatFuel]
      omega
  | (p, v) :: a', b => by
      have ih := flatFuel_append a' b
      rw [List.cons_append, jsonplus.flatFuel, jsonplus.flatFuel]
      omega

/-- Helper: prepending one segment to every path raises the fuel by twice
the entry count. -/
theorem flatFuel_shift : ∀ (k : Key) (l : List (List Key × Scalar)),
    jsonplus.flatFuel (l.map (fun e => (k :: e.1, e.2)))
      = jsonplus.flatFuel l + 2 * l.length
  | _, [] => rfl
  | k, (p, v) :: rest => by
      have ih := flatFuel_shift k rest
      simp only [List.map_cons, jsonplus.flatFuel, List.length_cons]
      omega

/-- Helper: the fuel as a sum over entries. -/
theorem flatFuel_eq_sum : ∀ l : List (List Key × Scalar),
    jsonplus.flatFuel l = (l.map (fun e => 2 * e.1.length + 2)).sum + 1
  | [] => rfl
  | (p, v) :: rest => by
      have ih := flatFuel_eq_sum rest
      simp only [List.map_cons, List.sum_cons, jsonplus.flatFuel]
      omega

/-- Helper: the fuel is invariant under permutation of the entries. -/
theorem flatFuel_perm (a b : List (List Key × Scalar)) (h : a.Perm b) :
    jsonplus.flatFuel a = jsonplus.flatFuel b := by
  rw [flatFuel_eq_sum, flatFuel_eq_sum,
    (h.map (fun e => 2 * e.1.length + 2)).sum_eq]

mutual

/-- Helper: the fuel of a non-empty-containers value's flattening covers
the recursion need of `expandRec` on it. -/
theorem expandNeed_le : ∀ j : Json, neJson j = true →
    expandNeed j ≤ jsonplus.flatFuel (jsonplus.flattenJson [] j)
  | .val v, _ => by
      show 1 ≤ jsonplus.flatFuel [([], v)]
      exact flatFuel_pos _
  | .obj [], h => by
      simp [neJson] at h
  | .obj (kv :: rest), h => by
      rw [neJson, neKvs] at h
      obtain ⟨ha, hb⟩ := Bool.and_eq_true_iff.mp h
      obtain ⟨h1, h2⟩ := Bool.and_eq_true_iff.mp hb
      have hblock : jsonplus.flattenJson ([] ++ [Key.str kv.1]) kv.2
          = (jsonplus.flattenJson [] kv.2).map
              (fun e => (Key.str kv.1 :: e.1, e.2)) := by
        rw [flattenJson_shift]
        simp
      have hfb := flatFuel_shift (Key.str kv.1) (jsonplus.flattenJson [] kv.2)
      rw [← hblock] at hfb
      have hlen : 1 ≤ (jsonplus.flattenJson [] kv.2).length :=
        List.length_pos.mpr (flattenJson_ne [] kv.2 h1)
      have happ := flatFuel_append
        (jsonplus.flattenJson ([] ++ [Key.str kv.1]) kv.2)
        (jsonplus.flattenObj [] rest)
      have ha := expandNeed_le kv.2 h1
      have hb := expandNeedKvs_le rest h2
      have hp0 := flatFuel_pos (jsonplus.flattenJson [] kv.2)
      have hp1 := flatFuel_pos (jsonplus.flattenObj [] rest)
      rw [expandNeed, expandNeedKvs, jsonplus.flattenJson, jsonplus.flattenObj]
      rcases max_choice (expandNeed kv.2) (expandNeedKvs rest) with hm | hm
      · rw [hm]
        omega
      · rw [hm]
        omega
  | .arr [], h => by
      simp [neJson] at h
  | .arr (v :: rest), h => by
      rw [neJson, neList] at h
      obtain ⟨ha, hb⟩ := Bool.and_eq_true_iff.mp h
      obtain ⟨h1, h2⟩ := Bool.and_eq_true_iff.mp hb
      have hblock : jsonplus.flattenJson ([] ++ [Key.idx 0]) v
          = (jsonplus.flattenJson [] v).map
              (fun e => (Key.idx 0 :: e.1, e.2)) := by
        rw [flattenJson_shift]
        simp
      have hfb := flatFuel_shift (Key.idx 0) (jsonplus.flattenJson [] v)
      rw [← hblock] at hfb
      have hlen : 1 ≤ (jsonplus.flattenJson [] v).length :=
        List.length_pos.mpr (flattenJson_ne [] v h1)
      have happ := flatFuel_append
        (jsonplus.flattenJson ([] ++ [Key.idx 0]) v)
        (jsonplus.flattenArr [] (0 + 1) rest)
      have ha := expandNeed_le v h1
      have hb := expandNeedList_le (0 + 1) rest h2
      have hp0 := flatFuel_pos (jsonplus.flattenJson [] v)
      have hp1 := flatFuel_pos (jsonplus.flattenArr [] (0 + 1) rest)
      rw [expandNeed, expandNeedList, jsonplus.flattenJson, jsonplus.flattenArr]
      rcases max_choice (expandNeed v) (expandNeedList rest) with hm | hm
      · rw [hm]
        omega
      · rw [hm]
        omega

theorem expandNeedKvs_le : ∀ kvs : List (String × Json), neKvs kvs = true →
    expandNeedKvs kvs ≤ jsonplus.flatFuel (jsonplus.flattenObj [] kvs)
  | [], _ => le_refl 1
  | kv :: rest, h => by
      rw [neKvs] at h
      obtain ⟨h1, h2⟩ := Bool.and_eq_true_iff.mp h
      have hblock : jsonplus.flattenJson ([] ++ [Key.str kv.1]) kv.2
          = (jsonplus.flattenJson [] kv.2).map
              (fun e => (Key.str kv.1 :: e.1, e.2)) := by
        rw [flattenJson_shift]
        simp
      have hfb := flatFuel_shift (Key.str kv.1) (jsonplus.flattenJson [] kv.2)
      rw [← hblock] at hfb
      have hlen : 1 ≤ (jsonplus.flattenJson [] kv.2).length :=
        List.length_pos.mpr (flattenJson_ne [] kv.2 h1)
      have happ := flatFuel_append
        (jsonplus.flattenJson ([] ++ [Key.str kv.1]) kv.2)
        (jsonplus.flattenObj [] rest)
      have ha := expandNeed_le kv.2 h1
      have hb := expandNeedKvs_le rest h2
      have hp1 := flatFuel_pos (jsonplus.flattenObj [] rest)
      rw [expandNeedKvs, jsonplus.flattenObj]
      rcases max_choice (expandNeed kv.2) (expandNeedKvs rest) with hm | hm
      · rw [hm]
        omega
      · rw [hm]
        omega

theorem expandNeedList_le : ∀ (i : Nat) (l : List Json), neList l = true →
    expandNeedList l ≤ jsonplus.flatFuel (jsonplus.flattenArr [] i l)
  | _, [], _ => le_refl 1
  | i, v :: rest, h => by
      rw [neList] at h
      obtain ⟨h1, h2⟩ := Bool.and_eq_true_iff.mp h
      have hblock : jsonplus.flattenJson ([] ++ [Key.idx i]) v
          = (jsonplus.flattenJson [] v).map
              (fun e => (Key.idx i :: e.1, e.2)) := by
        rw [flattenJson_shift]
        simp
      have hfb := flatFuel_shift (Key.idx i) (jsonplus.flattenJson [] v)
      rw [← hblock] at hfb
      have hlen : 1 ≤ (jsonplus.flattenJson [] v).length :=
        List.length_pos.mpr (flattenJson_ne [] v h1)
      have happ := flatFuel_append
        (jsonplus.flattenJson ([] ++ [Key.idx i]) v)
        (jsonplus.flattenArr [] (i + 1) rest)
      have ha := expandNeed_le v h1
      have hb := expandNeedList_le (i + 1) rest h2
      have hp1 := flatFuel_pos (jsonplus.flattenArr [] (i + 1) rest)
      rw [expandNeedList, jsonplus.flattenArr]
      rcases max_choice (expandNeed v) (expandNeedList rest) with hm | hm
      · rw [hm]
        omega
      · rw [hm]
        omega

end

/-- Helper: strictly sorted keys are duplicate-free. -/
theorem nodup_of_sortedStrict : ∀ ks : List String,
    sortedStrictKeys ks = true → ks.Nodup
  | [], _ => List.nodup_nil
  | [k], _ => by simp
  | a :: b :: rest, h => by
      have hlt := sortedStrict_head_lt a (b :: rest) h
      have h2 := sortedStrict_tail a (b :: rest) h
      refine List.nodup_cons.mpr ⟨?_, nodup_of_sortedStrict (b :: rest) h2⟩
      intro hmem
      have hx := hlt a hmem
      rw [pyStrLt_irrefl a] at hx
      exact Bool.false_ne_true hx

/-- Helper: the recursion need is positive. -/
theorem expandNeed_pos : ∀ j : Json, 1 ≤ expandNeed j
  | .val _ => le_refl 1
  | .obj kvs => by
      rw [expandNeed]
      omega
  | .arr l => by
      rw [expandNeed]
      omega

/-- Helper: the recursion need of entries is positive. -/
theorem expandNeedKvs_pos : ∀ kvs : List (String × Json),
    1 ≤ expandNeedKvs kvs
  | [] => le_refl 1
  | kv :: rest => by
      rw [expandNeedKvs]
      omega

/-- Helper: the recursion need of elements is positive. -/
theorem expandNeedList_pos : ∀ l : List Json, 1 ≤ expandNeedList l
  | [] => le_refl 1
  | v :: rest => by
      rw [expandNeedList]
      omega

/-- Helper: `bind` on an `ok` value applies the continuation. -/
theorem exceptBind_ok {ε α β : Type} (a : α) (f : α → Except ε β) :
    Bind.bind (Except.ok a : Except ε α) f = f a := rfl

/-- Helper: the string branch of the expansion worker. -/
theorem expandRec_str (fuel : Nat) (s : String) (p : List Key) (v : Scalar)
    (rest : List (List Key × Scalar)) :
    jsonplus.expandRec (fuel + 1) ((Key.str s :: p, v) :: rest)
      = Bind.bind (jsonplus.groupByHead ((Key.str s :: p, v) :: rest))
          (fun groups => Bind.bind (jsonplus.expandGroups fuel groups)
            (fun kvs => Except.ok (Json.obj kvs))) := rfl

/-- Helper: the integer branch of the expansion worker. -/
theorem expandRec_idx (fuel : Nat) (i : Nat) (p : List Key) (v : Scalar)
    (rest : List (List Key × Scalar)) :
    jsonplus.expandRec (fuel + 1) ((Key.idx i :: p, v) :: rest)
      = Bind.bind (jsonplus.lastHeadIndex ((Key.idx i :: p, v) :: rest))
          (fun n => Bind.bind
            (jsonplus.fillArray (n + 1) ((Key.idx i :: p, v) :: rest))
            (fun buckets => Bind.bind (jsonplus.expandBuckets fuel buckets)
              (fun elems => Except.ok (Json.arr elems)))) := rfl

/-- Helper: one step of the per-group expansion. -/
theorem expandGroups_cons (fuel : Nat) (s : String)
    (g : List (List Key × Scalar))
    (rest : List (Key × List (List Key × Scalar))) :
    jsonplus.expandGroups (fuel + 1) ((Key.str s, g) :: rest)
      = Bind.bind (jsonplus.expandRec fuel g)
          (fun v => Bind.bind (jsonplus.expandGroups fuel rest)
            (fun others => Except.ok ((s, v) :: others))) := rfl

/-- Helper: one step of the per-bucket expansion. -/
theorem expandBuckets_cons (fuel : Nat) (g : List (List Key × Scalar))
    (rest : List (List (List Key × Scalar))) :
    jsonplus.expandBuckets (fuel + 1) (g :: rest)
      = Bind.bind (jsonplus.expandRec fuel g)
          (fun v => Bind.bind (jsonplus.expandBuckets fuel rest)
            (fun others => Except.ok (v :: others))) := rfl

mutual

/-- Helper: with sufficient fuel, the expansion worker rebuilds any
canonical value with non-empty containers from its flattening. -/
theorem expandRec_flatten : ∀ (fuel : Nat) (j : Json),
    canonicalJson j = true → neJson j = true → expandNeed j ≤ fuel →
    jsonplus.expandRec fuel (jsonplus.flattenJson [] j) = .ok j
  | 0, j, _, _, hsz => absurd hsz (by
      have := expandNeed_pos j
      omega)
  | _ + 1, .val v, _, _, _ => rfl
  | fuel + 1, .obj kvs, hc, hne, hsz => by
      rw [neJson] at hne
      obtain ⟨hne0, hnek⟩ := Bool.and_eq_true_iff.mp hne
      rw [canonicalJson] at hc
      obtain ⟨hsort, hck⟩ := Bool.and_eq_true_iff.mp hc
      have hnd : (kvs.map Prod.fst).Nodup := nodup_of_sortedStrict _ hsort
      have hneAll : ∀ kv ∈ kvs, neJson kv.2 = true := (neKvs_iff kvs).mp hnek
      have hG := groupByHead_flattenObj kvs hnd hneAll
      have hE := expandGroups_of_kvs fuel kvs hck hnek (by
        have he : expandNeed (.obj kvs) = 1 + expandNeedKvs kvs := rfl
        omega)
      cases kvs with
      | nil => exact absurd rfl (of_decide_eq_true hne0)
      | cons kv rest =>
          have hb : jsonplus.flattenJson [] kv.2 ≠ [] :=
            flattenJson_ne [] kv.2 (hneAll kv (List.mem_cons_self _ _))
          rcases List.exists_cons_of_ne_nil hb with ⟨e, es, hB⟩
          have hflat : jsonplus.flattenObj [] (kv :: rest)
              = (Key.str kv.1 :: e.1, e.2)
                :: (es.map (fun x => (Key.str kv.1 :: x.1, x.2))
                  ++ jsonplus.flattenObj [] rest) := by
            rw [jsonplus.flattenObj,
              flattenJson_shift ([] ++ [Key.str kv.1]) kv.2, hB]
            simp
          show jsonplus.expandRec (fuel + 1)
            (jsonplus.flattenObj [] (kv :: rest)) = _
          rw [hflat, expandRec_str, ← hflat, hG, exceptBind_ok, hE,
            exceptBind_ok]
  | fuel + 1, .arr l, hc, hne, hsz => by
      rw [neJson] at hne
      obtain ⟨hne0, hnel⟩ := Bool.and_eq_true_iff.mp hne
      rw [canonicalJson] at hc
      have hneAll : ∀ v ∈ l, neJson v = true := (neList_iff l).mp hnel
      have hL := lastHeadIndex_flattenArr 0 l hneAll (of_decide_eq_true hne0)
      have hF := fillArrayGo_flattenArr l 0 [] rfl
      have hE := expandBuckets_of_list fuel l hc hnel (by
        have he : expandNeed (.arr l) = 1 + expandNeedList l := rfl
        omega)
      rw [List.nil_append, List.nil_append] at hF
      cases l with
      | nil => exact absurd rfl (of_decide_eq_true hne0)
      | cons v rest =>
          have hb : jsonplus.flattenJson [] v ≠ [] :=
            flattenJson_ne [] v (hneAll v (List.mem_cons_self _ _))
          rcases List.exists_cons_of_ne_nil hb with ⟨e, es, hB⟩
          have hflat : jsonplus.flattenArr [] 0 (v :: rest)
              = (Key.idx 0 :: e.1, e.2)
                :: (es.map (fun x => (Key.idx 0 :: x.1, x.2))
                  ++ jsonplus.flattenArr [] (0 + 1) rest) := by
            rw [jsonplus.flattenArr,
              flattenJson_shift ([] ++ [Key.idx 0]) v, hB]
            simp
          show jsonplus.expandRec (fuel + 1)
            (jsonplus.flattenArr [] 0 (v :: rest)) = _
          rw [hflat, expandRec_idx, ← hflat, hL, exceptBind_ok]
          have hn : 0 + (v :: rest).length - 1 + 1 = (v :: rest).length := by
            rw [List.length_cons]
            omega
          rw [hn, jsonplus.fillArray, hF, exceptBind_ok, hE, exceptBind_ok]

theorem expandGroups_of_kvs : ∀ (fuel : Nat) (kvs : List (String × Json)),
    canonicalKvs kvs = true → neKvs kvs = true → expandNeedKvs kvs ≤ fuel →
    jsonplus.expandGroups fuel
      (kvs.map (fun kv => (Key.str kv.1, jsonplus.flattenJson [] kv.2)))
      = .ok kvs
  | 0, kvs, _, _, hsz => absurd hsz (by
      have := expandNeedKvs_pos kvs
      omega)
  | _ + 1, [], _, _, _ => rfl
  | fuel + 1, kv :: rest, hc, hne, hsz => by
      rw [canonicalKvs] at hc
      obtain ⟨hc1, hc2⟩ := Bool.and_eq_true_iff.mp hc
      rw [neKvs] at hne
      obtain ⟨hn1, hn2⟩ := Bool.and_eq_true_iff.mp hne
      have he : expandNeedKvs (kv :: rest)
          = 1 + max (expandNeed kv.2) (expandNeedKvs rest) := rfl
      have hm := Nat.max_le.mp
        ((by omega : max (expandNeed kv.2) (expandNeedKvs rest) ≤ fuel))
      rw [List.map_cons, expandGroups_cons,
        expandRec_flatten fuel kv.2 hc1 hn1 hm.1, exceptBind_ok,
        expandGroups_of_kvs fuel rest hc2 hn2 hm.2, exceptBind_ok,
        Prod.mk.eta]

theorem expandBuckets_of_list : ∀ (fuel : Nat) (l : List Json),
    canonicalList l = true → neList l = true → expandNeedList l ≤ fuel →
    jsonplus.expandBuckets fuel (l.map (fun v => jsonplus.flattenJson [] v))
      = .ok l
  | 0, l, _, _, hsz => absurd hsz (by
      have := expandNeedList_pos l
      omega)
  | _ + 1, [], _, _, _ => rfl
  | fuel + 1, v :: rest, hc, hne, hsz => by
      rw [canonicalList] at hc
      obtain ⟨hc1, hc2⟩ := Bool.and_eq_true_iff.mp hc
      rw [neList] at hne
      obtain ⟨hn1, hn2⟩ := Bool.and_eq_true_iff.mp hne
      have he : expandNeedList (v :: rest)
          = 1 + max (expandNeed v) (expandNeedList rest) := rfl
      have hm := Nat.max_le.mp
        ((by omega : max (expandNeed v) (expandNeedList rest) ≤ fuel))
      rw [List.map_cons, expandBuckets_cons,
        expandRec_flatten fuel v hc1 hn1 hm.1, exceptBind_ok,
        expandBuckets_of_list fuel rest hc2 hn2 hm.2, exceptBind_ok]

end

/-- C5: for every JSON value whose root classifies as Object or Array,
whose object key sets are duplicate-free, and all of whose containers are
non-empty, `expand (flatten v)` succeeds and returns a value that is equal
to `v` in Python's `==` sense (dict insertion order ignored; the value
returned is the key-sorted canonical form). -/
theorem C5_flatten_expand_roundtrip (v : Json)
    (_hroot : rootIsContainer v = true) (hwf : wfJson v = true)
    (hne : neJson v = true) :
    ∃ w, jsonplus.expand (jsonplus.flatten v) = .ok w ∧
      pyJsonEq w v = true := by
  refine ⟨canon v, ?_, canon_pyJsonEq v hwf⟩
  rw [jsonplus.expand, sort_flatten_eq v hwf]
  exact expandRec_flatten (jsonplus.flatFuel (jsonplus.flatten v)) (canon v)
    (canon_canonical v hwf) (canon_ne v hne)
    (by
      rw [flatFuel_perm (jsonplus.flatten v) (jsonplus.flatten (canon v))
        (canon_flatten_perm v).symm]
      exact expandNeed_le (canon v) (canon_ne v hne))

/-- C5 counterexample: the claim has no non-emptiness proviso, but the
empty object — whose root classifies as Object — flattens to the empty
list, and `expand` of the empty list fails with a `ValueError` instead of
round-tripping back to the empty object. -/
theorem C5_flatten_expand_counterexample :
    rootIsContainer (Json.obj []) = true ∧
    jsonplus.flatten (Json.obj []) = [] ∧
    jsonplus.expand (jsonplus.flatten (Json.obj []))
      = .error (.valueError "cannot convert empty flat json to json") :=
  ⟨rfl, rfl, rfl⟩

/-- Witness for C5 at a concrete two-entry object holding an array and a
string: the hypotheses hold and the round trip yields a Python-equal
value. -/
theorem C5_flatten_expand_roundtrip_witness :
    rootIsContainer jexC5 = true ∧ wfJson jexC5 = true ∧
    neJson jexC5 = true ∧
    ∃ w, jsonplus.expand (jsonplus.flatten jexC5) = .ok w ∧
      pyJsonEq w jexC5 = true :=
  ⟨by decide, by decide, by decide,
    C5_flatten_expand_roundtrip jexC5 (by decide) (by decide) (by decide)⟩

end SAJE
